import Mathlib

/-!
Shallow embedding of the voxel terrain engine (`src/gameplay/dig/mod.rs` and the
region-edit loop of `src/gameplay/inventory.rs`).

Machine arithmetic is modelled explicitly: Rust `i32` operations wrap modulo `2^32`
(`wrap32`, `wAdd`, `wMul`), `as usize` casts reduce modulo `2^64` (`castUsize`),
`usize -> i32` truncates to the low 32 bits (`castI32ofUsize`), and
`usize::wrapping_sub` is `usizeWrappingSub`.  Bitsets (`FixedBitSet`) are modelled
as `Finset Nat`; the dense voxel buffer is a `List Voxel` indexed by `getD`/`set`
(all indices proved in range where the code relies on it).
-/

/-- The voxel material enum (`Voxel` in the source). -/
inductive Voxel where
  | Dirt
  | Sand
  | Barrier
  | Air
deriving DecidableEq, Repr

/-- Integer 3-vector mirroring `IVec3` (components are mathematical integers;
32-bit wrapping is applied explicitly at each arithmetic step that the source
performs on `i32`). -/
structure IVec3 where
  x : Int
  y : Int
  z : Int
deriving DecidableEq, Repr

/-- Componentwise addition, mirroring `IVec3 + IVec3` (no in-range overflow occurs
at the call sites, which only add offsets in `[-2, 2]` to in-bounds coordinates). -/
def IVec3.add (a b : IVec3) : IVec3 := ⟨a.x + b.x, a.y + b.y, a.z + b.z⟩

instance : Add IVec3 := ⟨IVec3.add⟩

/-- Wrap an integer into the signed 32-bit range, the behaviour of overflowing
`i32` arithmetic in release builds. -/
def wrap32 (n : Int) : Int := (n + 2 ^ 31) % 2 ^ 32 - 2 ^ 31

/-- `i32` addition with wrap-around. -/
def wAdd (a b : Int) : Int := wrap32 (a + b)

/-- `i32` multiplication with wrap-around. -/
def wMul (a b : Int) : Int := wrap32 (a * b)

/-- `as usize` on a 64-bit target: reduce modulo `2^64` and read as a natural. -/
def castUsize (n : Int) : Nat := (n % 2 ^ 64).toNat

/-- `usize -> i32` cast: keep the low 32 bits, signed. -/
def castI32ofUsize (n : Nat) : Int := wrap32 (n : Int)

/-- `u32` cast of an `i32` value: low 32 bits as a natural. -/
def castU32 (n : Int) : Nat := (n % 2 ^ 32).toNat

/-- `usize::wrapping_sub`. -/
def usizeWrappingSub (a b : Nat) : Nat := (a + (2 ^ 64 - b % 2 ^ 64)) % 2 ^ 64

/-- `linearize(bounds, pos) = (pos.z + pos.x*bounds.z + pos.y*bounds.x*bounds.z) as usize`
with every `i32` operation wrapping (left-associated exactly as in the source). -/
def linearize (bounds pos : IVec3) : Nat :=
  castUsize (wAdd (wAdd pos.z (wMul pos.x bounds.z)) (wMul (wMul pos.y bounds.x) bounds.z))

/-- `delinearize(bounds, index)`: truncate the index to `i32`, then use Rust's
truncated `%` and `/` (`Int.tmod` / `Int.tdiv`).  Rust's `%` and `/` panic on a
zero divisor, which `Int.tmod` / `Int.tdiv` total as `0`; every use of
`delinearize` in this development — including the overflow counterexample —
keeps both divisors (`bounds.z` and the wrapped `bounds.x * bounds.z`) nonzero,
so the collapsed zero-divisor path is never exercised. -/
def delinearize (bounds : IVec3) (index : Nat) : IVec3 :=
  ⟨((castI32ofUsize index).tdiv bounds.z).tmod bounds.x,
   (castI32ofUsize index).tdiv (wMul bounds.x bounds.z),
   (castI32ofUsize index).tmod bounds.z⟩

/-- `in_bounds(bounds, pos)`. -/
def in_bounds (bounds pos : IVec3) : Bool :=
  decide (0 ≤ pos.x ∧ pos.x < bounds.x ∧ 0 ≤ pos.y ∧ pos.y < bounds.y ∧
          0 ≤ pos.z ∧ pos.z < bounds.z)

/-- The 18-connected neighbor offsets (`NEIGHBORS_18`), 6 face + 12 edge neighbors,
in source order. -/
def NEIGHBORS_18 : List IVec3 :=
  [⟨1, 0, 0⟩, ⟨-1, 0, 0⟩, ⟨0, 1, 0⟩, ⟨0, -1, 0⟩, ⟨0, 0, 1⟩, ⟨0, 0, -1⟩,
   ⟨1, 1, 0⟩, ⟨-1, 1, 0⟩, ⟨1, -1, 0⟩, ⟨-1, -1, 0⟩,
   ⟨1, 0, 1⟩, ⟨-1, 0, 1⟩, ⟨1, 0, -1⟩, ⟨-1, 0, -1⟩,
   ⟨0, 1, 1⟩, ⟨0, -1, 1⟩, ⟨0, 1, -1⟩, ⟨0, -1, -1⟩]

/-- The dirty-region work buffer (`DirtyBuffer`): its bounds and the `dirty`
bitset, modelled as a finite set of cell indices. -/
structure DirtyBuffer where
  bounds : IVec3
  dirty : Finset Nat

/-- `DirtyBuffer::new`: empty dirty set (capacity is not modelled; dilation only
ever inserts in-bounds linearized indices). -/
def DirtyBuffer.new (bounds : IVec3) : DirtyBuffer := ⟨bounds, ∅⟩

/-- `DirtyBuffer::dilate_modified`: insert every in-bounds 18-connected neighbor
of every modified cell into the dirty set. -/
def DirtyBuffer.dilate_modified (d : DirtyBuffer) (modified : Finset Nat) : DirtyBuffer :=
  { d with
    dirty := d.dirty ∪ modified.biUnion (fun index =>
      (NEIGHBORS_18.filterMap (fun offset =>
        let neighbor := delinearize d.bounds index + offset
        if in_bounds d.bounds neighbor then some (linearize d.bounds neighbor)
        else none)).toFinset) }

/-- The voxel grid component (`VoxelSim`): bounds, dense material buffer, the
`modified` bitset, and the `needs_remesh` flag. -/
structure VoxelSim where
  bounds : IVec3
  voxels : List Voxel
  modified : Finset Nat
  needs_remesh : Bool

/-- `VoxelSim::new`: an all-`Air` grid of `bounds.x * bounds.y * bounds.z` cells. -/
def VoxelSim.new (bounds : IVec3) : VoxelSim :=
  ⟨bounds, List.replicate (castUsize (wMul (wMul bounds.x bounds.y) bounds.z)) Voxel.Air,
   ∅, false⟩

/-- `VoxelSim::volume`: `(bounds.x * bounds.y * bounds.z) as usize`. -/
def VoxelSim.volume (s : VoxelSim) : Nat :=
  castUsize (wMul (wMul s.bounds.x s.bounds.y) s.bounds.z)

/-- `VoxelSim::get`: `None` out of bounds, else the cell's material. -/
def VoxelSim.get (s : VoxelSim) (pos : IVec3) : Option Voxel :=
  if in_bounds s.bounds pos then some (s.voxels.getD (linearize s.bounds pos) Voxel.Air)
  else none

/-- `VoxelSim::set`: no-op out of bounds; otherwise write the cell, mark it
modified and set `needs_remesh`. -/
def VoxelSim.set (s : VoxelSim) (pos : IVec3) (voxel : Voxel) : VoxelSim :=
  if in_bounds s.bounds pos then
    { s with
      voxels := s.voxels.set (linearize s.bounds pos) voxel,
      modified := insert (linearize s.bounds pos) s.modified,
      needs_remesh := true }
  else s

/-- `VoxelSim::clear_modified`. -/
def VoxelSim.clear_modified (s : VoxelSim) : VoxelSim := { s with modified := ∅ }

/-- The materials moved by the automaton: the `Voxel::Dirt | Voxel::Sand` match
arms of `simulate`. -/
def movable : Voxel → Bool
  | Voxel.Dirt => true
  | Voxel.Sand => true
  | _ => false

/-- The four down-diagonal offsets checked by `simulate`, in source order. -/
def diagOffsets : List IVec3 := [⟨-1, -2, 0⟩, ⟨1, -2, 0⟩, ⟨0, -2, -1⟩, ⟨0, -2, 1⟩]

/-- The diagonal-fall scan of `simulate`: take the first offset whose target is
horizontally in bounds, has index under `volume`, and holds `Air`; move there. -/
def diagTry (volume : Nat) (s : VoxelSim) (i : Nat) (voxel : Voxel) (pos : IVec3) :
    List IVec3 → VoxelSim
  | [] => s
  | offset :: rest =>
    let target := pos + offset
    if 0 ≤ target.x ∧ target.x < s.bounds.x ∧ 0 ≤ target.z ∧ target.z < s.bounds.z then
      if linearize s.bounds target < volume ∧
         s.voxels.getD (linearize s.bounds target) Voxel.Air = Voxel.Air then
        { s with
          voxels := (s.voxels.set i Voxel.Air).set (linearize s.bounds target) voxel,
          modified := insert (linearize s.bounds target) (insert i s.modified),
          needs_remesh := true }
      else diagTry volume s i voxel pos rest
    else diagTry volume s i voxel pos rest

/-- The diagonal phase of one cell: only entered when `target_y = pos.y - 2 >= 0`. -/
def diagPhase (volume : Nat) (s : VoxelSim) (i : Nat) (voxel : Voxel) : VoxelSim :=
  let pos := delinearize s.bounds i
  if 0 ≤ pos.y - 2 then diagTry volume s i voxel pos diagOffsets else s

/-- Processing of a single dirty index in `simulate`: vertical fall if the cell
below (`i.wrapping_sub(y_stride)`, guarded by `below < volume`) is `Air`,
otherwise the diagonal scan.  The two source `match` blocks over the same `voxel`
binding are merged into one `movable` test with identical semantics. -/
def simStep (volume y_stride : Nat) (s : VoxelSim) (i : Nat) : VoxelSim :=
  let voxel := s.voxels.getD i Voxel.Air
  if movable voxel then
    let below := usizeWrappingSub i y_stride
    if below < volume ∧ s.voxels.getD below Voxel.Air = Voxel.Air then
      { s with
        voxels := (s.voxels.set i Voxel.Air).set below voxel,
        modified := insert below (insert i s.modified),
        needs_remesh := true }
    else diagPhase volume s i voxel
  else s

/-- `VoxelSim::simulate`: clear the dirty set, dilate `modified` into it, clear
`modified`, then process the dirty indices in ascending order (`FixedBitSet::ones`
iterates set bits in increasing index order; all dirty bits are below the bitset
capacity `volume`, so the ascending scan of `0..volume` filtered by membership is
exactly that iteration). -/
def VoxelSim.simulate (s : VoxelSim) (d : DirtyBuffer) : VoxelSim × DirtyBuffer :=
  let y_stride := linearize s.bounds ⟨0, 1, 0⟩
  let volume := s.volume
  let d1 := DirtyBuffer.dilate_modified ⟨d.bounds, ∅⟩ s.modified
  let s1 := { s with modified := (∅ : Finset Nat) }
  let s2 := (List.range volume).foldl
    (fun acc i => if i ∈ d1.dirty then simStep volume y_stride acc i else acc) s1
  (s2, d1)

/-- A variant of `simulate` that processes an explicitly given list of dirty
indices instead of the ascending scan; used to state how the result depends on
the processing order. -/
def simulateOrder (s : VoxelSim) (d : DirtyBuffer) (order : List Nat) :
    VoxelSim × DirtyBuffer :=
  let y_stride := linearize s.bounds ⟨0, 1, 0⟩
  let volume := s.volume
  let d1 := DirtyBuffer.dilate_modified ⟨d.bounds, ∅⟩ s.modified
  let s1 := { s with modified := (∅ : Finset Nat) }
  let s2 := order.foldl (fun acc i => simStep volume y_stride acc i) s1
  (s2, d1)

/-- The ascending enumeration of the dirty set that `simulate` processes. -/
def ascendingDirty (s : VoxelSim) (d : DirtyBuffer) : List Nat :=
  (List.range s.volume).filter
    (fun i => decide (i ∈ (DirtyBuffer.dilate_modified ⟨d.bounds, ∅⟩ s.modified).dirty))

/-- The collider position list built by `remesh_voxels`: the delinearized
position of every non-`Air` cell, in ascending index order. -/
def colliderPositions (s : VoxelSim) : List IVec3 :=
  ((List.range s.voxels.length).filter
    (fun i => decide (s.voxels.getD i Voxel.Air ≠ Voxel.Air))).map
    (fun i => delinearize s.bounds i)

/-- The collision-shape outcome of `remesh_voxels`: either a voxel shape built
from a position list (with the fixed voxel edge `VOXEL_SIZE = 0.25 = 1/4`), or
removal of the collider component. -/
inductive ColliderUpdate where
  | voxelShape (size : Rat) (positions : List IVec3)
  | removeShape
deriving DecidableEq

/-- The collider part of `remesh_voxels`: submit `Collider::voxels` when the
position list is nonempty, otherwise remove the collider. -/
def remeshColliderUpdate (s : VoxelSim) : ColliderUpdate :=
  if colliderPositions s ≠ [] then ColliderUpdate.voxelShape (1 / 4) (colliderPositions s)
  else ColliderUpdate.removeShape

/-- The signed offsets `-r ..= r` of the region-edit cube, in loop order. -/
def cubeRange (r : Nat) : List Int := (List.range (2 * r + 1)).map (fun n => (n : Int) - r)

/-- All offsets of the cube of side `2r+1`, in the `dx`/`dy`/`dz` nesting order of
`dig_voxel`. -/
def digOffsets (r : Nat) : List IVec3 :=
  (cubeRange r).flatMap (fun dx =>
    (cubeRange r).flatMap (fun dy =>
      (cubeRange r).map (fun dz => ⟨dx, dy, dz⟩)))

/-- The region-edit loop of `dig_voxel` (`src/gameplay/inventory.rs`): set every
cell of the cube around `center` whose squared offset is at most `radius²` to
`Air`.  The source compares `f32` values, but for the natural-number radii used
here both the squared distance (at most `3·radius²`) and `radius²` are integers
far below `2^24`, where `f32` arithmetic and comparison are exact, so the integer
comparison coincides with the source's.  `digStep` is the loop body, `digRegion`
the whole triple loop. -/
def digStep (center : IVec3) (radius : Nat) (acc : VoxelSim) (d : IVec3) : VoxelSim :=
  if d.x * d.x + d.y * d.y + d.z * d.z ≤ (radius : Int) * (radius : Int) then
    acc.set (center + d) Voxel.Air
  else acc

def digRegion (s : VoxelSim) (center : IVec3) (radius : Nat) : VoxelSim :=
  (digOffsets radius).foldl (digStep center radius) s

/-- Modelled from the spec: the output buffer type of the `fast_surface_nets`
crate (`SurfaceNetsBuffer`), which is not part of this repository — a list of
vertex positions and a flat list of triangle indices. -/
structure SurfaceNetsBuffer where
  positions : List (Rat × Rat × Rat)
  indices : List Nat
deriving DecidableEq

/-- Modelled from the spec: the row-major linearization of the padded sample
field used by the extraction pass (`RuntimeShape::<u32, 3>::linearize` of the
external `ndshape` crate; the exact stride order is irrelevant to the stated
properties, which only depend on field contents). -/
def shapeLinearize (dims : Nat × Nat × Nat) (p : Nat × Nat × Nat) : Nat :=
  p.1 + dims.1 * (p.2.1 + dims.2.1 * p.2.2)

/-- Padded field dimensions in `sample`: grid bounds + 3 per axis. -/
def paddedDims (s : VoxelSim) : Nat × Nat × Nat :=
  (castU32 s.bounds.x + 3, castU32 s.bounds.y + 3, castU32 s.bounds.z + 3)

/-- `u32` multiplication with wrap-around. -/
def u32Mul (a b : Nat) : Nat := a * b % 2 ^ 32

/-- The scalar field built by `sample` for one material: `+0.5` everywhere,
`-0.5` at every grid cell holding the material, offset by one cell of padding. -/
def sdfFor (s : VoxelSim) (v : Voxel) : List Rat :=
  (List.range s.voxels.length).foldl
    (fun sdf i =>
      if s.voxels.getD i Voxel.Air = v then
        sdf.set
          (shapeLinearize (paddedDims s)
            (castU32 (delinearize s.bounds i).x + 1,
             castU32 (delinearize s.bounds i).y + 1,
             castU32 (delinearize s.bounds i).z + 1))
          (-(1 / 2))
      else sdf)
    (List.replicate (u32Mul (u32Mul (paddedDims s).1 (paddedDims s).2.1) (paddedDims s).2.2)
      (1 / 2))

/-- Is the sample at `p` negative (inside the surface)?  Out-of-range reads
default to the outside value `+0.5`. -/
def negAt (sdf : List Rat) (dims : Nat × Nat × Nat) (p : Nat × Nat × Nat) : Bool :=
  decide (sdf.getD (shapeLinearize dims p) (1 / 2) < 0)

/-- The eight corner offsets of a unit cube. -/
def cornerOffsets : List (Nat × Nat × Nat) :=
  [(0, 0, 0), (1, 0, 0), (0, 1, 0), (1, 1, 0), (0, 0, 1), (1, 0, 1), (0, 1, 1), (1, 1, 1)]

/-- Modelled from the spec: a cube of the dual grid carries a surface vertex
exactly when its corners mix negative (inside) and nonnegative (outside)
samples. -/
def cubeMixed (sdf : List Rat) (dims : Nat × Nat × Nat) (c : Nat × Nat × Nat) : Bool :=
  (cornerOffsets.any fun o => negAt sdf dims (c.1 + o.1, c.2.1 + o.2.1, c.2.2 + o.2.2)) &&
  (cornerOffsets.any fun o => !negAt sdf dims (c.1 + o.1, c.2.1 + o.2.1, c.2.2 + o.2.2))

/-- The cube min-corners visited by the extraction pass: `[0, max)` per axis. -/
def cubesList (maxs : Nat × Nat × Nat) : List (Nat × Nat × Nat) :=
  (List.range maxs.1).flatMap (fun x =>
    (List.range maxs.2.1).flatMap (fun y =>
      (List.range maxs.2.2).map (fun z => (x, y, z))))

/-- Modelled from the spec: one surface vertex per mixed-sign cube (the crate
places it at the centroid of edge crossings; the model uses the cube center,
which the stated properties — presence and emptiness — do not depend on). -/
def surfaceNetsPositions (sdf : List Rat) (dims maxs : Nat × Nat × Nat) :
    List (Rat × Rat × Rat) :=
  ((cubesList maxs).filter (cubeMixed sdf dims)).map
    (fun c => ((c.1 : Rat) + 1 / 2, (c.2.1 : Rat) + 1 / 2, (c.2.2 : Rat) + 1 / 2))

/-- Does the sample sign change across the edge `p`–`q`? -/
def edgeCrossing (sdf : List Rat) (dims : Nat × Nat × Nat) (p q : Nat × Nat × Nat) : Bool :=
  Bool.xor (negAt sdf dims p) (negAt sdf dims q)

/-- Two triangles over the four cubes around a crossing edge, as indices into the
mixed-cube list. -/
def quadIndices (mixed : List (Nat × Nat × Nat)) (c0 c1 c2 c3 : Nat × Nat × Nat) : List Nat :=
  [mixed.indexOf c0, mixed.indexOf c1, mixed.indexOf c2,
   mixed.indexOf c0, mixed.indexOf c2, mixed.indexOf c3]

/-- Modelled from the spec: the triangle indices of the surface-nets pass — a
quad (two triangles) for every interior sample edge whose endpoints straddle the
surface, joining the vertices of the four cubes sharing that edge. -/
def surfaceNetsIndices (sdf : List Rat) (dims maxs : Nat × Nat × Nat) : List Nat :=
  let mixed := (cubesList maxs).filter (cubeMixed sdf dims)
  (cubesList maxs).flatMap (fun p =>
    (if 1 ≤ p.2.1 ∧ 1 ≤ p.2.2 ∧
        edgeCrossing sdf dims p (p.1 + 1, p.2.1, p.2.2) = true then
      quadIndices mixed (p.1, p.2.1 - 1, p.2.2 - 1) (p.1, p.2.1 - 1, p.2.2)
        (p.1, p.2.1, p.2.2) (p.1, p.2.1, p.2.2 - 1)
    else []) ++
    (if 1 ≤ p.1 ∧ 1 ≤ p.2.2 ∧
        edgeCrossing sdf dims p (p.1, p.2.1 + 1, p.2.2) = true then
      quadIndices mixed (p.1 - 1, p.2.1, p.2.2 - 1) (p.1 - 1, p.2.1, p.2.2)
        (p.1, p.2.1, p.2.2) (p.1, p.2.1, p.2.2 - 1)
    else []) ++
    (if 1 ≤ p.1 ∧ 1 ≤ p.2.1 ∧
        edgeCrossing sdf dims p (p.1, p.2.1, p.2.2 + 1) = true then
      quadIndices mixed (p.1 - 1, p.2.1 - 1, p.2.2) (p.1 - 1, p.2.1, p.2.2)
        (p.1, p.2.1, p.2.2) (p.1, p.2.1 - 1, p.2.2)
    else []))

/-- The surface buffer `sample` builds for one material: run the (modelled)
surface-nets pass over the padded field, then rescale positions by
`(p - 0.5) * VOXEL_SIZE` with `VOXEL_SIZE = 1/4` (exact in `f32` and in `Rat`). -/
def VoxelSim.sampleBuffer (s : VoxelSim) (v : Voxel) : SurfaceNetsBuffer :=
  let dims := paddedDims s
  let maxs := (dims.1 - 1, dims.2.1 - 1, dims.2.2 - 1)
  let sdf := sdfFor s v
  { positions := (surfaceNetsPositions sdf dims maxs).map
      (fun p => ((p.1 - 1 / 2) * (1 / 4), (p.2.1 - 1 / 2) * (1 / 4), (p.2.2 - 1 / 2) * (1 / 4))),
    indices := surfaceNetsIndices sdf dims maxs }

/-- `VoxelSim::sample`: one buffer for each of `Voxel::Sand` and `Voxel::Dirt`
(the only materials the loop `for &voxel_type in &[Voxel::Sand, Voxel::Dirt]`
visits), as an association list. -/
def VoxelSim.sample (s : VoxelSim) : List (Voxel × SurfaceNetsBuffer) :=
  [(Voxel.Sand, s.sampleBuffer Voxel.Sand), (Voxel.Dirt, s.sampleBuffer Voxel.Dirt)]

/-- A 1-wide grid column scenario: grid of bounds `1 × H × 1` whose cells
`a ≤ y < a + k` hold `Dirt` and all others `Air`. -/
def colVox (a k H : Nat) : List Voxel :=
  (List.range H).map (fun y => if a ≤ y ∧ y < a + k then Voxel.Dirt else Voxel.Air)

/-- One simulation tick as a function on the pair (grid, dirty buffer). -/
def tick (p : VoxelSim × DirtyBuffer) : VoxelSim × DirtyBuffer := p.1.simulate p.2

/-- Intermediate voxel state while the ascending scan of one tick walks a falling
column: the first `j` column cells (at `a ≤ y < a + j`) have already moved down
one step. -/
def midVox (a k H j : Nat) : List Voxel :=
  (List.range H).map
    (fun y => if (a - 1 ≤ y ∧ y + 1 < a + j) ∨ (a + j ≤ y ∧ y < a + k) then Voxel.Dirt
              else Voxel.Air)

/-- The modified set accumulated after the first `j` column cells have moved. -/
def midMod (a j : Nat) : Finset Nat := if j = 0 then ∅ else Finset.Ico (a - 1) (a + j)

/-- The `needs_remesh` flag after the first `j` column cells have moved. -/
def midNr (nr : Bool) (j : Nat) : Bool := if j = 0 then nr else true

/-! ### Arithmetic facts about the wrapped index computations -/

theorem in_bounds_iff {b p : IVec3} :
    in_bounds b p = true ↔
      (0 ≤ p.x ∧ p.x < b.x ∧ 0 ≤ p.y ∧ p.y < b.y ∧ 0 ≤ p.z ∧ p.z < b.z) := by
  simp [in_bounds]

theorem wrap32_eq {n : Int} (h1 : -(2 ^ 31) ≤ n) (h2 : n < 2 ^ 31) : wrap32 n = n := by
  unfold wrap32
  rw [Int.emod_eq_of_lt (by omega) (by omega)]
  omega

theorem castUsize_eq {n : Int} (h1 : 0 ≤ n) (h2 : n < 2 ^ 64) : castUsize n = n.toNat := by
  unfold castUsize
  rw [Int.emod_eq_of_lt h1 h2]

theorem castI32ofUsize_eq {n : Nat} (h : (n : Int) < 2 ^ 31) : castI32ofUsize n = n :=
  wrap32_eq (by omega) h

/-- Exact value and range of `linearize` when the total volume fits in `i32`:
no wrap occurs, and the index is below the volume. -/
theorem linearize_eq {b p : IVec3} (hx : 0 < b.x) (hy : 0 < b.y) (hz : 0 < b.z)
    (hfit : b.x * b.y * b.z < 2 ^ 31) (hin : in_bounds b p = true) :
    (linearize b p : Int) = p.z + p.x * b.z + p.y * b.x * b.z ∧
    linearize b p < (b.x * b.y * b.z).toNat := by
  obtain ⟨h1, h2, h3, h4, h5, h6⟩ := in_bounds_iff.mp hin
  have hbz : (0 : Int) ≤ b.z := le_of_lt hz
  have hbx : (0 : Int) ≤ b.x := le_of_lt hx
  have e1 : p.x * b.z ≤ (b.x - 1) * b.z := mul_le_mul_of_nonneg_right (by omega) hbz
  have e2 : (0 : Int) ≤ p.x * b.z := mul_nonneg h1 hbz
  have e3 : p.y * b.x ≤ (b.y - 1) * b.x := mul_le_mul_of_nonneg_right (by omega) hbx
  have e4 : (0 : Int) ≤ p.y * b.x := mul_nonneg h3 hbx
  have e5 : p.y * b.x * b.z ≤ (b.y - 1) * b.x * b.z := mul_le_mul_of_nonneg_right e3 hbz
  have e6 : (0 : Int) ≤ p.y * b.x * b.z := mul_nonneg e4 hbz
  have e7 : (0 : Int) < b.x * b.z := mul_pos hx hz
  have e8 : b.x * b.z ≤ b.x * b.y * b.z := by nlinarith
  have e9 : p.z + p.x * b.z < b.x * b.z := by nlinarith
  have e10 : p.z + p.x * b.z + p.y * b.x * b.z < b.x * b.y * b.z := by nlinarith
  have w1 : wMul p.x b.z = p.x * b.z := wrap32_eq (by linarith) (by linarith)
  have w2 : wAdd p.z (p.x * b.z) = p.z + p.x * b.z := wrap32_eq (by linarith) (by linarith)
  have w3 : wMul p.y b.x = p.y * b.x := wrap32_eq (by linarith) (by nlinarith)
  have w4 : wMul (p.y * b.x) b.z = p.y * b.x * b.z := wrap32_eq (by linarith) (by linarith)
  have w5 : wAdd (p.z + p.x * b.z) (p.y * b.x * b.z) =
      p.z + p.x * b.z + p.y * b.x * b.z := wrap32_eq (by linarith) (by linarith)
  have hv : linearize b p = (p.z + p.x * b.z + p.y * b.x * b.z).toNat := by
    unfold linearize
    rw [w1, w2, w3, w4, w5, castUsize_eq (by linarith) (by linarith)]
  constructor
  · rw [hv]
    omega
  · rw [hv]
    omega

/-- The volume computation is exact when it fits in `i32`. -/
theorem volume_eq {b : IVec3} (hx : 0 < b.x) (hy : 0 < b.y) (hz : 0 < b.z)
    (hfit : b.x * b.y * b.z < 2 ^ 31) (vox : List Voxel) (m : Finset Nat) (nr : Bool) :
    (VoxelSim.volume ⟨b, vox, m, nr⟩) = (b.x * b.y * b.z).toNat := by
  have e1 : (0 : Int) < b.x * b.y := mul_pos hx hy
  have e2 : b.x * b.y ≤ b.x * b.y * b.z := by nlinarith
  have w1 : wMul b.x b.y = b.x * b.y := wrap32_eq (by linarith) (by linarith)
  have w2 : wMul (b.x * b.y) b.z = b.x * b.y * b.z := wrap32_eq (by nlinarith) (by linarith)
  unfold VoxelSim.volume
  rw [w1, w2, castUsize_eq (by nlinarith) (by linarith)]

/-- The `y_stride` computed by `simulate` is exactly `bounds.x * bounds.z`. -/
theorem y_stride_eq {b : IVec3} (hx : 0 < b.x) (hy : 0 < b.y) (hz : 0 < b.z)
    (hfit : b.x * b.y * b.z < 2 ^ 31) :
    linearize b ⟨0, 1, 0⟩ = (b.x * b.z).toNat := by
  have e7 : (0 : Int) < b.x * b.z := mul_pos hx hz
  have e8 : b.x * b.z ≤ b.x * b.y * b.z := by nlinarith
  have w0 : wMul 0 b.z = 0 := by
    unfold wMul
    rw [zero_mul]
    exact wrap32_eq (by omega) (by omega)
  have w1 : wAdd 0 0 = 0 := wrap32_eq (by omega) (by omega)
  have w2 : wMul 1 b.x = b.x := by
    unfold wMul
    rw [one_mul]
    exact wrap32_eq (by linarith) (by nlinarith)
  have w3 : wMul b.x b.z = b.x * b.z := wrap32_eq (by nlinarith) (by linarith)
  have w4 : wAdd 0 (b.x * b.z) = b.x * b.z := by
    unfold wAdd
    rw [zero_add]
    exact wrap32_eq (by linarith) (by linarith)
  show castUsize (wAdd (wAdd 0 (wMul 0 b.z)) (wMul (wMul 1 b.x) b.z)) = (b.x * b.z).toNat
  rw [w0, w1, w2, w3, w4, castUsize_eq (by linarith) (by linarith)]

/-- Round-trip of the index maps on any in-bounds position of a grid whose
volume fits in `i32`. -/
theorem delinearize_linearize {b p : IVec3} (hx : 0 < b.x) (hy : 0 < b.y) (hz : 0 < b.z)
    (hfit : b.x * b.y * b.z < 2 ^ 31) (hin : in_bounds b p = true) :
    delinearize b (linearize b p) = p := by
  obtain ⟨h1, h2, h3, h4, h5, h6⟩ := in_bounds_iff.mp hin
  obtain ⟨hval, _⟩ := linearize_eq hx hy hz hfit hin
  have hbz : (0 : Int) ≤ b.z := le_of_lt hz
  have hbx : (0 : Int) ≤ b.x := le_of_lt hx
  have e2 : (0 : Int) ≤ p.x * b.z := mul_nonneg h1 hbz
  have e4 : (0 : Int) ≤ p.y * b.x := mul_nonneg h3 hbx
  have e6 : (0 : Int) ≤ p.y * b.x * b.z := mul_nonneg e4 hbz
  have e7 : (0 : Int) < b.x * b.z := mul_pos hx hz
  have e8 : b.x * b.z ≤ b.x * b.y * b.z := by nlinarith
  have e9 : p.z + p.x * b.z < b.x * b.z := by nlinarith
  have hI0 : (0 : Int) ≤ p.z + p.x * b.z + p.y * b.x * b.z := by linarith
  have hIlt : p.z + p.x * b.z + p.y * b.x * b.z < 2 ^ 31 := by nlinarith
  have hidx : castI32ofUsize (linearize b p) = p.z + p.x * b.z + p.y * b.x * b.z := by
    unfold castI32ofUsize
    rw [hval]
    exact wrap32_eq (by linarith) hIlt
  have hbxz : wMul b.x b.z = b.x * b.z := wrap32_eq (by linarith) (by linarith)
  have ez : (p.z + p.x * b.z + p.y * b.x * b.z).tmod b.z = p.z := by
    rw [Int.tmod_eq_emod hI0 hbz]
    have : p.z + p.x * b.z + p.y * b.x * b.z = p.z + b.z * (p.x + p.y * b.x) := by ring
    rw [this, Int.add_mul_emod_self_left, Int.emod_eq_of_lt h5 h6]
  have ex : ((p.z + p.x * b.z + p.y * b.x * b.z).tdiv b.z).tmod b.x = p.x := by
    rw [Int.tdiv_eq_ediv hI0 hbz]
    have : p.z + p.x * b.z + p.y * b.x * b.z = p.z + b.z * (p.x + p.y * b.x) := by ring
    rw [this, Int.add_mul_ediv_left _ _ (by omega : b.z ≠ 0),
      Int.ediv_eq_zero_of_lt h5 h6, zero_add]
    have h9 : (0 : Int) ≤ p.x + p.y * b.x := by linarith
    rw [Int.tmod_eq_emod h9 hbx]
    have : p.x + p.y * b.x = p.x + b.x * p.y := by ring
    rw [this, Int.add_mul_emod_self_left, Int.emod_eq_of_lt h1 h2]
  have ey : (p.z + p.x * b.z + p.y * b.x * b.z).tdiv (b.x * b.z) = p.y := by
    rw [Int.tdiv_eq_ediv hI0 (by linarith)]
    have : p.z + p.x * b.z + p.y * b.x * b.z = (p.z + p.x * b.z) + (b.x * b.z) * p.y := by
      ring
    rw [this, Int.add_mul_ediv_left _ _ (by omega : b.x * b.z ≠ 0),
      Int.ediv_eq_zero_of_lt (by linarith) e9, zero_add]
  show (⟨_, _, _⟩ : IVec3) = p
  rw [hidx, hbxz, ez, ex, ey]

/-! ### Generic list helpers -/

theorem foldl_fixed {α β : Type _} (f : α → β → α) (s : α) :
    ∀ L : List β, (∀ x ∈ L, f s x = s) → L.foldl f s = s
  | [], _ => rfl
  | b :: L, h => by
    rw [List.foldl_cons, h b (List.mem_cons_self b L)]
    exact foldl_fixed f s L (fun x hx => h x (List.mem_cons_of_mem b hx))

theorem flatMap_eq_nil {α β : Type _} (f : α → List β) :
    ∀ L : List α, (∀ x ∈ L, f x = []) → L.flatMap f = []
  | [], _ => rfl
  | b :: L, h => by
    rw [List.flatMap_cons, h b (List.mem_cons_self b L), List.nil_append]
    exact flatMap_eq_nil f L (fun x hx => h x (List.mem_cons_of_mem b hx))

theorem set_getD_eq_self {α : Type _} :
    ∀ (l : List α) (i : Nat) (d : α), l.set i (l.getD i d) = l
  | [], _, _ => rfl
  | _ :: _, 0, _ => rfl
  | a :: t, n + 1, d => by
    rw [List.getD_cons_succ, List.set_cons_succ, set_getD_eq_self t n d]

theorem getD_ext {α : Type _} (d : α) :
    ∀ (l1 l2 : List α), l1.length = l2.length →
      (∀ i, l1.getD i d = l2.getD i d) → l1 = l2
  | [], [], _, _ => rfl
  | [], _ :: _, h, _ => by simp at h
  | _ :: _, [], h, _ => by simp at h
  | a :: t1, b :: t2, h, h2 => by
    have hab : a = b := h2 0
    have ht : t1 = t2 :=
      getD_ext d t1 t2 (by simpa using h) (fun i => by simpa using h2 (i + 1))
    rw [hab, ht]

/-! ### Claim C2: bounds guard on `get` and `set` -/

/-- C2: for every out-of-bounds position, `get` returns `none` and `set` leaves
the whole grid state (voxel array, modified bitset, `needs_remesh` flag)
unchanged. -/
theorem get_set_out_of_bounds (s : VoxelSim) (pos : IVec3) (m : Voxel)
    (h : in_bounds s.bounds pos = false) :
    s.get pos = none ∧ s.set pos m = s := by
  constructor
  · simp [VoxelSim.get, h]
  · simp [VoxelSim.set, h]

/-- Witness for C2 at a concrete grid and position. -/
theorem get_set_out_of_bounds_witness :
    (VoxelSim.new ⟨2, 2, 2⟩).get ⟨-1, 0, 0⟩ = none ∧
    (VoxelSim.new ⟨2, 2, 2⟩).set ⟨-1, 0, 0⟩ Voxel.Dirt = VoxelSim.new ⟨2, 2, 2⟩ :=
  get_set_out_of_bounds (VoxelSim.new ⟨2, 2, 2⟩) ⟨-1, 0, 0⟩ Voxel.Dirt (by decide)

/-! ### Claim C10: `set` marks and flags unconditionally -/

/-- C10: an in-bounds `set` inserts the cell's linearized index into `modified`
and sets `needs_remesh`, even when the cell already holds the written material —
and in that case the voxel array is unchanged. -/
theorem set_marks_unconditionally (s : VoxelSim) (pos : IVec3) (m : Voxel)
    (h : in_bounds s.bounds pos = true) :
    (s.set pos m).modified = insert (linearize s.bounds pos) s.modified ∧
    (s.set pos m).needs_remesh = true ∧
    (s.voxels.getD (linearize s.bounds pos) Voxel.Air = m → (s.set pos m).voxels = s.voxels) := by
  refine ⟨?_, ?_, ?_⟩
  · simp [VoxelSim.set, h]
  · simp [VoxelSim.set, h]
  · intro hm
    simp only [VoxelSim.set, h, if_pos]
    rw [← hm, set_getD_eq_self]

/-- Witness for C10: re-writing `Dirt` over a cell that already holds `Dirt`
still marks it modified, and leaves the voxel array unchanged. -/
theorem set_marks_unconditionally_witness :
    (((VoxelSim.new ⟨1, 1, 1⟩).set ⟨0, 0, 0⟩ Voxel.Dirt).set ⟨0, 0, 0⟩ Voxel.Dirt).modified =
      insert
        (linearize ((VoxelSim.new ⟨1, 1, 1⟩).set ⟨0, 0, 0⟩ Voxel.Dirt).bounds ⟨0, 0, 0⟩)
        ((VoxelSim.new ⟨1, 1, 1⟩).set ⟨0, 0, 0⟩ Voxel.Dirt).modified ∧
    (((VoxelSim.new ⟨1, 1, 1⟩).set ⟨0, 0, 0⟩ Voxel.Dirt).set ⟨0, 0, 0⟩ Voxel.Dirt).voxels =
      ((VoxelSim.new ⟨1, 1, 1⟩).set ⟨0, 0, 0⟩ Voxel.Dirt).voxels :=
  ⟨(set_marks_unconditionally ((VoxelSim.new ⟨1, 1, 1⟩).set ⟨0, 0, 0⟩ Voxel.Dirt)
      ⟨0, 0, 0⟩ Voxel.Dirt (by decide)).1,
   (set_marks_unconditionally ((VoxelSim.new ⟨1, 1, 1⟩).set ⟨0, 0, 0⟩ Voxel.Dirt)
      ⟨0, 0, 0⟩ Voxel.Dirt (by decide)).2.2 (by decide)⟩

/-! ### Claim C4: linearization round-trip -/

/-- C4 counterexample: with positive bounds `(3, 65536, 65536)` the in-bounds
position `(0, 65535, 0)` does not round-trip.  In `linearize`, the `i32` product
`pos.y * bounds.x * bounds.z = 65535 * 3 * 65536` overflows: in release it wraps
to `-196608` (in debug the multiply panics, so the round-trip equation fails
there too), and `as usize` sign-extends it to `2^64 - 196608`.  `delinearize`
then truncates back to `-196608` and divides by `bounds.z = 65536` and by the
(non-wrapping, nonzero) `i32` product `bounds.x * bounds.z = 196608` — no
division panics — recovering `(0, -1, 0)`, not `(0, 65535, 0)`.  The fifth
conjunct records that the divisor `delinearize` uses is the nonzero `196608`,
so Rust's truncated division really runs at this input and the model follows
it exactly. -/
theorem roundtrip_overflow_counterexample :
    (0 : Int) < (⟨3, 65536, 65536⟩ : IVec3).x ∧
    (0 : Int) < (⟨3, 65536, 65536⟩ : IVec3).y ∧
    (0 : Int) < (⟨3, 65536, 65536⟩ : IVec3).z ∧
    in_bounds ⟨3, 65536, 65536⟩ ⟨0, 65535, 0⟩ = true ∧
    wMul (⟨3, 65536, 65536⟩ : IVec3).x (⟨3, 65536, 65536⟩ : IVec3).z = 196608 ∧
    delinearize ⟨3, 65536, 65536⟩ (linearize ⟨3, 65536, 65536⟩ ⟨0, 65535, 0⟩) =
      ⟨0, -1, 0⟩ ∧
    (⟨0, -1, 0⟩ : IVec3) ≠ ⟨0, 65535, 0⟩ := by
  refine ⟨by decide, by decide, by decide, by decide, by decide, ?_, by decide⟩
  decide

/-- C4 (amended): for every bounds vector with positive components whose total
volume fits in a 32-bit signed integer (as holds for every grid the engine
creates), and every in-bounds position, `delinearize (linearize pos) = pos`. -/
theorem linearize_roundtrip (b p : IVec3) (hx : 0 < b.x) (hy : 0 < b.y) (hz : 0 < b.z)
    (hfit : b.x * b.y * b.z < 2 ^ 31) (hin : in_bounds b p = true) :
    delinearize b (linearize b p) = p :=
  delinearize_linearize hx hy hz hfit hin

/-- Witness for C4 at concrete bounds and position. -/
theorem linearize_roundtrip_witness :
    delinearize ⟨2, 3, 4⟩ (linearize ⟨2, 3, 4⟩ ⟨1, 2, 3⟩) = ⟨1, 2, 3⟩ :=
  linearize_roundtrip ⟨2, 3, 4⟩ ⟨1, 2, 3⟩ (by decide) (by decide) (by decide) (by decide)
    (by decide)

/-! ### Claim C6: collider positions and collider removal -/

/-- C6: the collider position list handed to physics contains exactly the
delinearized positions of the non-`Air` cells, and the collision shape is
removed (rather than an empty shape being submitted) precisely when every cell
is `Air`. -/
theorem collider_positions_exact (s : VoxelSim) :
    (∀ p : IVec3, p ∈ colliderPositions s ↔
      ∃ i, i < s.voxels.length ∧ s.voxels.getD i Voxel.Air ≠ Voxel.Air ∧
        p = delinearize s.bounds i) ∧
    (remeshColliderUpdate s = ColliderUpdate.removeShape ↔
      ∀ i, i < s.voxels.length → s.voxels.getD i Voxel.Air = Voxel.Air) := by
  have hchar : colliderPositions s = [] ↔
      ∀ i, i < s.voxels.length → s.voxels.getD i Voxel.Air = Voxel.Air := by
    unfold colliderPositions
    rw [List.map_eq_nil_iff, List.filter_eq_nil_iff]
    constructor
    · intro h i hi
      have := h i (List.mem_range.mpr hi)
      simpa using this
    · intro h i hi
      simp only [decide_eq_true_eq, not_not]
      exact h i (List.mem_range.mp hi)
  constructor
  · intro p
    unfold colliderPositions
    simp only [List.mem_map, List.mem_filter, List.mem_range, decide_eq_true_eq]
    constructor
    · rintro ⟨i, ⟨hi, hne⟩, hp⟩
      exact ⟨i, hi, hne, hp.symm⟩
    · rintro ⟨i, hi, hne, hp⟩
      exact ⟨i, ⟨hi, hne⟩, hp.symm⟩
  · unfold remeshColliderUpdate
    split_ifs with h
    · constructor
      · intro habs
        exact absurd habs (by simp)
      · intro hall
        exact absurd (hchar.mpr hall) h
    · simp only [not_not] at h
      simp only [true_iff]
      exact hchar.mp h

/-! ### Claim C7: idempotence of the radius edit -/

theorem set_bounds (s : VoxelSim) (p : IVec3) (v : Voxel) :
    (s.set p v).bounds = s.bounds := by
  unfold VoxelSim.set
  split <;> rfl

theorem set_length (s : VoxelSim) (p : IVec3) (v : Voxel) :
    (s.set p v).voxels.length = s.voxels.length := by
  unfold VoxelSim.set
  split <;> simp

theorem getD_set_same {α : Type _} :
    ∀ (l : List α) (j i : Nat) (a : α),
      (l.set j a).getD i a = if j = i then a else l.getD i a
  | [], j, i, a => by simp
  | b :: t, 0, 0, a => by simp
  | b :: t, 0, n + 1, a => by simp
  | b :: t, m + 1, 0, a => by simp
  | b :: t, m + 1, n + 1, a => by
    rw [List.set_cons_succ, List.getD_cons_succ, List.getD_cons_succ,
      getD_set_same t m n a]
    exact if_congr (by omega) rfl rfl

theorem set_air_getD (s : VoxelSim) (p : IVec3) (i : Nat) :
    (s.set p Voxel.Air).voxels.getD i Voxel.Air =
      if in_bounds s.bounds p = true ∧ linearize s.bounds p = i then Voxel.Air
      else s.voxels.getD i Voxel.Air := by
  cases hb : in_bounds s.bounds p with
  | false =>
    simp [VoxelSim.set, hb]
  | true =>
    simp only [VoxelSim.set, hb, if_true, true_and]
    exact getD_set_same s.voxels (linearize s.bounds p) i Voxel.Air

theorem ite_ite_or {P Q : Prop} [Decidable P] [Decidable Q] {α : Type _} (x y : α) :
    (if P then x else if Q then x else y) = if P ∨ Q then x else y := by
  split_ifs <;> first | rfl | tauto

theorem digStep_bounds (c : IVec3) (r : Nat) (s : VoxelSim) (d : IVec3) :
    (digStep c r s d).bounds = s.bounds := by
  unfold digStep
  split
  · exact set_bounds s (c + d) Voxel.Air
  · rfl

theorem digStep_length (c : IVec3) (r : Nat) (s : VoxelSim) (d : IVec3) :
    (digStep c r s d).voxels.length = s.voxels.length := by
  unfold digStep
  split
  · exact set_length s (c + d) Voxel.Air
  · rfl

theorem dig_foldl_bounds (c : IVec3) (r : Nat) :
    ∀ (L : List IVec3) (s : VoxelSim), (L.foldl (digStep c r) s).bounds = s.bounds
  | [], _ => rfl
  | d :: L, s => by
    rw [List.foldl_cons, dig_foldl_bounds c r L (digStep c r s d), digStep_bounds]

theorem dig_foldl_length (c : IVec3) (r : Nat) :
    ∀ (L : List IVec3) (s : VoxelSim),
      (L.foldl (digStep c r) s).voxels.length = s.voxels.length
  | [], _ => rfl
  | d :: L, s => by
    rw [List.foldl_cons, dig_foldl_length c r L (digStep c r s d), digStep_length]

theorem dig_foldl_getD (c : IVec3) (r : Nat) :
    ∀ (L : List IVec3) (s : VoxelSim) (i : Nat),
      (L.foldl (digStep c r) s).voxels.getD i Voxel.Air =
        if ∃ d ∈ L, d.x * d.x + d.y * d.y + d.z * d.z ≤ (r : Int) * (r : Int) ∧
            in_bounds s.bounds (c + d) = true ∧ linearize s.bounds (c + d) = i then
          Voxel.Air
        else s.voxels.getD i Voxel.Air
  | [], s, i => by simp
  | d :: L, s, i => by
    rw [List.foldl_cons, dig_foldl_getD c r L (digStep c r s d) i]
    have hsplit :
        (∃ e ∈ d :: L, e.x * e.x + e.y * e.y + e.z * e.z ≤ (r : Int) * (r : Int) ∧
            in_bounds s.bounds (c + e) = true ∧ linearize s.bounds (c + e) = i) ↔
        ((d.x * d.x + d.y * d.y + d.z * d.z ≤ (r : Int) * (r : Int) ∧
            in_bounds s.bounds (c + d) = true ∧ linearize s.bounds (c + d) = i) ∨
          ∃ e ∈ L, e.x * e.x + e.y * e.y + e.z * e.z ≤ (r : Int) * (r : Int) ∧
            in_bounds s.bounds (c + e) = true ∧ linearize s.bounds (c + e) = i) := by
      simp only [List.mem_cons, exists_eq_or_imp]
    rw [digStep_bounds]
    by_cases hcond : d.x * d.x + d.y * d.y + d.z * d.z ≤ (r : Int) * (r : Int)
    · have hv : (digStep c r s d).voxels.getD i Voxel.Air =
          if in_bounds s.bounds (c + d) = true ∧ linearize s.bounds (c + d) = i then
            Voxel.Air
          else s.voxels.getD i Voxel.Air := by
        simp only [digStep, if_pos hcond]
        exact set_air_getD s (c + d) i
      rw [hv, ite_ite_or]
      refine if_congr ?_ rfl rfl
      rw [hsplit]
      constructor
      · rintro (hA | hB)
        · exact Or.inr hA
        · exact Or.inl ⟨hcond, hB⟩
      · rintro (⟨_, hB⟩ | hA)
        · exact Or.inr hB
        · exact Or.inl hA
    · have hv : (digStep c r s d).voxels = s.voxels := by
        simp [digStep, hcond]
      rw [hv]
      refine if_congr ?_ rfl rfl
      rw [hsplit]
      constructor
      · exact Or.inr
      · rintro (⟨hc, _⟩ | hA)
        · exact absurd hc hcond
        · exact hA

/-- C7: applying the radius edit (dig to `Air`) twice in a row yields exactly the
same voxel array as applying it once. -/
theorem digRegion_idempotent (s : VoxelSim) (center : IVec3) (radius : Nat) :
    (digRegion (digRegion s center radius) center radius).voxels =
      (digRegion s center radius).voxels := by
  have hb : (digRegion s center radius).bounds = s.bounds :=
    dig_foldl_bounds center radius (digOffsets radius) s
  apply getD_ext Voxel.Air
  · exact dig_foldl_length center radius (digOffsets radius) (digRegion s center radius)
  · intro i
    show ((digOffsets radius).foldl (digStep center radius)
        (digRegion s center radius)).voxels.getD i Voxel.Air =
      (digRegion s center radius).voxels.getD i Voxel.Air
    rw [dig_foldl_getD center radius (digOffsets radius) (digRegion s center radius) i, hb]
    have hfirst : (digRegion s center radius).voxels.getD i Voxel.Air =
        if ∃ d ∈ digOffsets radius,
            d.x * d.x + d.y * d.y + d.z * d.z ≤ (radius : Int) * (radius : Int) ∧
            in_bounds s.bounds (center + d) = true ∧
            linearize s.bounds (center + d) = i then
          Voxel.Air
        else s.voxels.getD i Voxel.Air :=
      dig_foldl_getD center radius (digOffsets radius) s i
    by_cases h : ∃ d ∈ digOffsets radius,
        d.x * d.x + d.y * d.y + d.z * d.z ≤ (radius : Int) * (radius : Int) ∧
        in_bounds s.bounds (center + d) = true ∧ linearize s.bounds (center + d) = i
    · rw [if_pos h, hfirst, if_pos h]
    · rw [if_neg h]

/-! ### Claim C1: processing order of the dirty set -/

theorem foldl_filter_decide {α β : Type _} (p : β → Prop) [DecidablePred p] (f : α → β → α) :
    ∀ (L : List β) (s : α),
      (L.filter (fun b => decide (p b))).foldl f s =
        L.foldl (fun acc b => if p b then f acc b else acc) s
  | [], _ => rfl
  | b :: L, s => by
    by_cases hp : p b
    · rw [List.filter_cons, if_pos (by simpa using hp), List.foldl_cons, List.foldl_cons,
        if_pos hp]
      exact foldl_filter_decide p f L (f s b)
    · rw [List.filter_cons, if_neg (by simpa using hp), List.foldl_cons, if_neg hp]
      exact foldl_filter_decide p f L s

/-- C1 (amended): one automaton pass is the ascending-index fold over the dirty
set — `simulate` equals `simulateOrder` run on the ascending enumeration of the
dirty indices.  (The result does in general depend on the order: see the
order-dependence counterexample, where a cell falls into a space vacated by an
earlier-processed cell.) -/
theorem simulate_eq_ascending_order (s : VoxelSim) (d : DirtyBuffer) :
    s.simulate d = simulateOrder s d (ascendingDirty s d) := by
  unfold VoxelSim.simulate simulateOrder ascendingDirty
  simp only []
  congr 1
  exact (foldl_filter_decide
    (fun i => i ∈ (DirtyBuffer.dilate_modified ⟨d.bounds, ∅⟩ s.modified).dirty)
    (simStep s.volume (linearize s.bounds ⟨0, 1, 0⟩)) (List.range s.volume)
    { s with modified := ∅ }).symm

/-- C1 counterexample: a three-cell column `[Air, Dirt, Dirt]` with both `Dirt`
cells modified dilates to the dirty set `{0, 1, 2}`; processing the permutation
`[0, 2, 1]` of those indices yields a different voxel array than the ascending
order `[0, 1, 2]` (in ascending order the upper cell falls into the space the
lower cell vacated; in the other order it cannot). -/
theorem simulate_order_dependence_counterexample :
    ((⟨⟨1, 3, 1⟩, [Voxel.Air, Voxel.Dirt, Voxel.Dirt], {1, 2}, false⟩ : VoxelSim).simulate
        (DirtyBuffer.new ⟨1, 3, 1⟩)).2.dirty = ({0, 1, 2} : Finset Nat) ∧
    List.Perm [0, 1, 2] [0, 2, 1] ∧
    (simulateOrder ⟨⟨1, 3, 1⟩, [Voxel.Air, Voxel.Dirt, Voxel.Dirt], {1, 2}, false⟩
        (DirtyBuffer.new ⟨1, 3, 1⟩) [0, 1, 2]).1.voxels ≠
      (simulateOrder ⟨⟨1, 3, 1⟩, [Voxel.Air, Voxel.Dirt, Voxel.Dirt], {1, 2}, false⟩
        (DirtyBuffer.new ⟨1, 3, 1⟩) [0, 2, 1]).1.voxels :=
  ⟨by decide, by decide, by decide⟩

/-! ### Claim C8: dilation never marks the modified cell itself -/

theorem IVec3.add_x (a b : IVec3) : (a + b).x = a.x + b.x := rfl

theorem IVec3.add_y (a b : IVec3) : (a + b).y = a.y + b.y := rfl

theorem IVec3.add_z (a b : IVec3) : (a + b).z = a.z + b.z := rfl

/-- C8: after a single `set pos m` on a grid with no other modified cells, the
next pass's dirty set consists only of linearized in-bounds neighbors of `pos`,
and `pos`'s own index is absent from it; consequently a lone `Dirt` voxel placed
directly above `Air` does not fall on the following tick (concrete instance on a
`1×2×1` grid). -/
theorem dilation_excludes_modified_cell (s : VoxelSim) (d : DirtyBuffer) (pos : IVec3)
    (m : Voxel) (hx : 0 < s.bounds.x) (hy : 0 < s.bounds.y) (hz : 0 < s.bounds.z)
    (hfit : s.bounds.x * s.bounds.y * s.bounds.z < 2 ^ 31)
    (hin : in_bounds s.bounds pos = true) (hmod : s.modified = ∅)
    (hd : d.bounds = s.bounds) :
    (∀ n ∈ ((s.set pos m).simulate d).2.dirty,
        ∃ offset ∈ NEIGHBORS_18, in_bounds s.bounds (pos + offset) = true ∧
          n = linearize s.bounds (pos + offset)) ∧
    linearize s.bounds pos ∉ ((s.set pos m).simulate d).2.dirty ∧
    (((VoxelSim.new ⟨1, 2, 1⟩).set ⟨0, 1, 0⟩ Voxel.Dirt).simulate
        (DirtyBuffer.new ⟨1, 2, 1⟩)).1.voxels = [Voxel.Air, Voxel.Dirt] := by
  have hsb : (s.set pos m).bounds = s.bounds := set_bounds s pos m
  have hsm : (s.set pos m).modified = {linearize s.bounds pos} := by
    simp [VoxelSim.set, hin, hmod]
  have hdel : delinearize s.bounds (linearize s.bounds pos) = pos :=
    delinearize_linearize hx hy hz hfit hin
  have hmem : ∀ n, n ∈ ((s.set pos m).simulate d).2.dirty ↔
      ∃ offset ∈ NEIGHBORS_18, in_bounds s.bounds (pos + offset) = true ∧
        linearize s.bounds (pos + offset) = n := by
    intro n
    show n ∈ (DirtyBuffer.dilate_modified ⟨d.bounds, ∅⟩ (s.set pos m).modified).dirty ↔ _
    rw [hsm]
    simp only [DirtyBuffer.dilate_modified, Finset.empty_union, Finset.mem_biUnion,
      Finset.mem_singleton, List.mem_toFinset, List.mem_filterMap, exists_eq_left, hdel, hd]
    constructor
    · rintro ⟨offset, hoff, hsome⟩
      by_cases hb : in_bounds s.bounds (pos + offset) = true
      · rw [if_pos hb] at hsome
        exact ⟨offset, hoff, hb, Option.some_injective _ hsome⟩
      · rw [if_neg hb] at hsome
        exact absurd hsome (by simp)
    · rintro ⟨offset, hoff, hb, hlin⟩
      exact ⟨offset, hoff, by rw [if_pos hb, hlin]⟩
  refine ⟨?_, ?_, by decide⟩
  · intro n hn
    obtain ⟨offset, hoff, hb, hlin⟩ := (hmem n).mp hn
    exact ⟨offset, hoff, hb, hlin.symm⟩
  · intro hcontra
    obtain ⟨offset, hoff, hb, hlin⟩ := (hmem _).mp hcontra
    have hrt : pos + offset = pos := by
      have h1 : delinearize s.bounds (linearize s.bounds (pos + offset)) = pos + offset :=
        delinearize_linearize hx hy hz hfit hb
      have h2 : delinearize s.bounds (linearize s.bounds pos) = pos :=
        delinearize_linearize hx hy hz hfit hin
      rw [hlin, h2] at h1
      exact h1.symm
    have hox : offset.x = 0 := by
      have := congrArg IVec3.x hrt
      rw [IVec3.add_x] at this
      omega
    have hoy : offset.y = 0 := by
      have := congrArg IVec3.y hrt
      rw [IVec3.add_y] at this
      omega
    have hoz : offset.z = 0 := by
      have := congrArg IVec3.z hrt
      rw [IVec3.add_z] at this
      omega
    have hzero : offset = ⟨0, 0, 0⟩ := by
      cases offset
      simp_all
    rw [hzero] at hoff
    exact absurd hoff (by decide)

/-- Witness for C8 at a concrete grid, position and material. -/
theorem dilation_excludes_modified_cell_witness :
    linearize (VoxelSim.new ⟨3, 3, 3⟩).bounds ⟨1, 1, 1⟩ ∉
      (((VoxelSim.new ⟨3, 3, 3⟩).set ⟨1, 1, 1⟩ Voxel.Dirt).simulate
        (DirtyBuffer.new ⟨3, 3, 3⟩)).2.dirty :=
  (dilation_excludes_modified_cell (VoxelSim.new ⟨3, 3, 3⟩) (DirtyBuffer.new ⟨3, 3, 3⟩)
    ⟨1, 1, 1⟩ Voxel.Dirt (by decide) (by decide) (by decide) (by decide) (by decide)
    (by decide) (by decide)).2.1

/-! ### Claim C9: every array access of `simulate` is in range -/

/-- C9: under the construction invariant (voxel array length equals the volume),
the guards of `simulate` keep every access in range: the bitset capacity equals
the array length, every dirty index (a linearized in-bounds position) is in
range, the wrapping-subtraction guard `below < volume` rejects every bottom-layer
cell (the wrapped value lands far above the volume), and the horizontal checks
plus `target_y >= 0` put every diagonal target in bounds and its index in
range. -/
theorem simulate_accesses_in_bounds (s : VoxelSim)
    (hx : 0 < s.bounds.x) (hy : 0 < s.bounds.y) (hz : 0 < s.bounds.z)
    (hfit : s.bounds.x * s.bounds.y * s.bounds.z < 2 ^ 31)
    (hlen : s.voxels.length = (s.bounds.x * s.bounds.y * s.bounds.z).toNat) :
    s.volume = s.voxels.length ∧
    (∀ pos : IVec3, in_bounds s.bounds pos = true →
      linearize s.bounds pos < s.voxels.length) ∧
    (∀ pos : IVec3, in_bounds s.bounds pos = true → pos.y = 0 →
      s.volume ≤ usizeWrappingSub (linearize s.bounds pos) (linearize s.bounds ⟨0, 1, 0⟩)) ∧
    (∀ pos offset, offset ∈ diagOffsets → in_bounds s.bounds pos = true →
      0 ≤ pos.y - 2 →
      0 ≤ (pos + offset).x → (pos + offset).x < s.bounds.x →
      0 ≤ (pos + offset).z → (pos + offset).z < s.bounds.z →
      in_bounds s.bounds (pos + offset) = true ∧
        linearize s.bounds (pos + offset) < s.voxels.length) := by
  have hvol : s.volume = (s.bounds.x * s.bounds.y * s.bounds.z).toNat :=
    volume_eq hx hy hz hfit s.voxels s.modified s.needs_remesh
  refine ⟨by rw [hvol, hlen], ?_, ?_, ?_⟩
  · intro pos hpos
    rw [hlen]
    exact (linearize_eq hx hy hz hfit hpos).2
  · intro pos hpos hy0
    obtain ⟨k1, k2, k3, k4, k5, k6⟩ := in_bounds_iff.mp hpos
    have hys : linearize s.bounds ⟨0, 1, 0⟩ = (s.bounds.x * s.bounds.z).toNat :=
      y_stride_eq hx hy hz hfit
    have hval := (linearize_eq hx hy hz hfit hpos).1
    rw [hy0] at hval
    have hbz : (0 : Int) ≤ s.bounds.z := le_of_lt hz
    have e1 : pos.x * s.bounds.z ≤ (s.bounds.x - 1) * s.bounds.z :=
      mul_le_mul_of_nonneg_right (by omega) hbz
    have e2 : (0 : Int) ≤ pos.x * s.bounds.z := mul_nonneg k1 hbz
    have hlt : (linearize s.bounds pos : Int) < s.bounds.x * s.bounds.z := by
      rw [hval]
      nlinarith
    have hge : (0 : Int) ≤ (linearize s.bounds pos : Int) := by positivity
    have e7 : (0 : Int) < s.bounds.x * s.bounds.z := mul_pos hx hz
    have e8 : s.bounds.x * s.bounds.z ≤ s.bounds.x * s.bounds.y * s.bounds.z := by nlinarith
    have hysmall : (s.bounds.x * s.bounds.z).toNat < 2 ^ 31 := by omega
    have hvolsmall : s.volume < 2 ^ 31 := by rw [hvol]; omega
    have hlp_lt : linearize s.bounds pos < (s.bounds.x * s.bounds.z).toNat := by omega
    rw [hys]
    unfold usizeWrappingSub
    omega
  · intro pos offset hoff hpos hy2 hx1 hx2 hz1 hz2
    obtain ⟨k1, k2, k3, k4, k5, k6⟩ := in_bounds_iff.mp hpos
    have hoffy : offset.y = -2 := by
      simp only [diagOffsets, List.mem_cons, List.not_mem_nil, or_false] at hoff
      rcases hoff with rfl | rfl | rfl | rfl <;> rfl
    have hinT : in_bounds s.bounds (pos + offset) = true := by
      rw [in_bounds_iff, IVec3.add_x, IVec3.add_y, IVec3.add_z]
      rw [IVec3.add_x] at hx1 hx2
      rw [IVec3.add_z] at hz1 hz2
      refine ⟨by omega, by omega, by omega, by omega, by omega, by omega⟩
    refine ⟨hinT, ?_⟩
    rw [hlen]
    exact (linearize_eq hx hy hz hfit hinT).2

/-- Witness for C9 at a concrete grid. -/
theorem simulate_accesses_in_bounds_witness :
    (VoxelSim.new ⟨2, 2, 2⟩).volume = (VoxelSim.new ⟨2, 2, 2⟩).voxels.length :=
  (simulate_accesses_in_bounds (VoxelSim.new ⟨2, 2, 2⟩) (by decide) (by decide) (by decide)
    (by decide) (by decide)).1

/-! ### Claim C5: per-material surface buffers -/

theorem getD_replicate {α : Type _} (n j : Nat) (a : α) :
    (List.replicate n a).getD j a = a := by
  rw [List.getD_eq_getElem?_getD, List.getElem?_replicate]
  split <;> rfl

/-- A material with no occupied cells leaves the padded field untouched, so the
(modelled) surface-nets pass emits no vertices and no indices for it. -/
theorem sampleBuffer_empty (s : VoxelSim) (v : Voxel) (hcount : s.voxels.count v = 0) :
    (s.sampleBuffer v).positions = [] ∧ (s.sampleBuffer v).indices = [] := by
  have hnotmem : v ∉ s.voxels := List.count_eq_zero.mp hcount
  have hsdf : sdfFor s v =
      List.replicate
        (u32Mul (u32Mul (paddedDims s).1 (paddedDims s).2.1) (paddedDims s).2.2)
        (1 / 2) := by
    unfold sdfFor
    apply foldl_fixed
    intro i hi
    have hlt : i < s.voxels.length := List.mem_range.mp hi
    have hiv : s.voxels.getD i Voxel.Air ≠ v := by
      rw [List.getD_eq_getElem?_getD, List.getElem?_eq_getElem hlt]
      intro hcontra
      exact hnotmem (hcontra ▸ List.getElem_mem hlt)
    rw [if_neg hiv]
  have hneg : ∀ p, negAt (sdfFor s v) (paddedDims s) p = false := by
    intro p
    unfold negAt
    rw [hsdf, getD_replicate]
    exact decide_eq_false (by norm_num)
  have hmixed : ∀ c, cubeMixed (sdfFor s v) (paddedDims s) c = false := by
    intro c
    simp [cubeMixed, hneg]
  have hcross : ∀ p q, edgeCrossing (sdfFor s v) (paddedDims s) p q = false := by
    intro p q
    unfold edgeCrossing
    rw [hneg, hneg]
    rfl
  simp only [VoxelSim.sampleBuffer]
  constructor
  · rw [List.map_eq_nil_iff]
    unfold surfaceNetsPositions
    rw [List.map_eq_nil_iff, List.filter_eq_nil_iff]
    intro c _
    simp [hmixed]
  · unfold surfaceNetsIndices
    apply flatMap_eq_nil
    intro p _
    simp [hcross]

/-- C5 counterexample: a grid holding one `Barrier` cell — a non-air material
with an occupied cell — receives no surface buffer at all: `sample` only ever
produces buffers for `Sand` and `Dirt`. -/
theorem sample_missing_barrier_counterexample :
    Voxel.Barrier ≠ Voxel.Air ∧
    ((VoxelSim.new ⟨1, 1, 1⟩).set ⟨0, 0, 0⟩ Voxel.Barrier).voxels.count Voxel.Barrier = 1 ∧
    Voxel.Barrier ∉
      (((VoxelSim.new ⟨1, 1, 1⟩).set ⟨0, 0, 0⟩ Voxel.Barrier).sample.map Prod.fst) :=
  ⟨by decide, by decide, by decide⟩

/-- C5 (amended): `sample` returns buffers for exactly the two meshed materials
`Sand` and `Dirt` (independently of occupancy; `Barrier` is never meshed), and
the buffer of a material with zero occupied cells is empty — no vertices, no
indices. -/
theorem sample_keys_and_empty_buffers (s : VoxelSim) :
    s.sample.map Prod.fst = [Voxel.Sand, Voxel.Dirt] ∧
    (∀ v b, (v, b) ∈ s.sample → s.voxels.count v = 0 →
      b.positions = [] ∧ b.indices = []) := by
  refine ⟨rfl, ?_⟩
  rintro v b hmem hcount
  simp only [VoxelSim.sample, List.mem_cons, List.not_mem_nil, or_false,
    Prod.mk.injEq] at hmem
  rcases hmem with ⟨rfl, rfl⟩ | ⟨rfl, rfl⟩ <;> exact sampleBuffer_empty s _ hcount

/-- Witness for C5 on an all-`Air` grid: the `Sand` buffer is empty. -/
theorem sample_keys_and_empty_buffers_witness :
    ((VoxelSim.new ⟨1, 1, 1⟩).sampleBuffer Voxel.Sand).positions = [] :=
  ((sample_keys_and_empty_buffers (VoxelSim.new ⟨1, 1, 1⟩)).2 Voxel.Sand
    ((VoxelSim.new ⟨1, 1, 1⟩).sampleBuffer Voxel.Sand)
    (by simp [VoxelSim.sample]) (by decide)).1

/-! ### Claim C3: a suspended column settles one cell per tick (1×H×1 grids) -/

theorem volume_1H1 (H : Nat) (vox : List Voxel) (m : Finset Nat) (nr : Bool)
    (hH0 : 0 < H) (hH : (H : Int) < 2 ^ 31) :
    VoxelSim.volume ⟨⟨1, H, 1⟩, vox, m, nr⟩ = H := by
  have h : VoxelSim.volume ⟨⟨1, H, 1⟩, vox, m, nr⟩ = ((1 : Int) * H * 1).toNat :=
    volume_eq (b := ⟨1, (H : Int), 1⟩) (by show (0 : Int) < 1; norm_num)
      (by show (0 : Int) < (H : Int); exact_mod_cast hH0) (by show (0 : Int) < 1; norm_num)
      (by show (1 : Int) * H * 1 < 2 ^ 31; simpa using hH) vox m nr
  rw [h]
  omega

theorem y_stride_1H1 (H : Nat) (hH0 : 0 < H) (hH : (H : Int) < 2 ^ 31) :
    linearize ⟨1, H, 1⟩ ⟨0, 1, 0⟩ = 1 := by
  have h : linearize ⟨1, H, 1⟩ ⟨0, 1, 0⟩ = ((1 : Int) * 1).toNat :=
    y_stride_eq (b := ⟨1, (H : Int), 1⟩) (by show (0 : Int) < 1; norm_num)
      (by show (0 : Int) < (H : Int); exact_mod_cast hH0) (by show (0 : Int) < 1; norm_num)
      (by show (1 : Int) * H * 1 < 2 ^ 31; simpa using hH)
  rw [h]
  rfl

theorem in_bounds_1H1 (H y : Nat) (hyH : y < H) :
    in_bounds ⟨1, H, 1⟩ ⟨0, y, 0⟩ = true := by
  rw [in_bounds_iff]
  refine ⟨by show (0 : Int) ≤ 0; norm_num, by show (0 : Int) < 1; norm_num,
    by show (0 : Int) ≤ (y : Int); positivity,
    by show (y : Int) < (H : Int); exact_mod_cast hyH,
    by show (0 : Int) ≤ 0; norm_num, by show (0 : Int) < 1; norm_num⟩

theorem linearize_1H1 (H y : Nat) (hH0 : 0 < H) (hH : (H : Int) < 2 ^ 31) (hyH : y < H) :
    linearize ⟨1, H, 1⟩ ⟨0, y, 0⟩ = y := by
  have h : (linearize ⟨1, H, 1⟩ ⟨0, y, 0⟩ : Int) = 0 + 0 * 1 + (y : Int) * 1 * 1 :=
    (linearize_eq (b := ⟨1, (H : Int), 1⟩) (p := ⟨0, (y : Int), 0⟩)
      (by show (0 : Int) < 1; norm_num)
      (by show (0 : Int) < (H : Int); exact_mod_cast hH0) (by show (0 : Int) < 1; norm_num)
      (by show (1 : Int) * H * 1 < 2 ^ 31; simpa using hH) (in_bounds_1H1 H y hyH)).1
  simp only [mul_one, one_mul, zero_mul, zero_add] at h
  omega

theorem delin_1H1 (H i : Nat) (hi : (i : Int) < 2 ^ 31) :
    delinearize ⟨1, H, 1⟩ i = ⟨0, i, 0⟩ := by
  show (⟨((castI32ofUsize i).tdiv 1).tmod 1, (castI32ofUsize i).tdiv (wMul 1 1),
    (castI32ofUsize i).tmod 1⟩ : IVec3) = ⟨0, (i : Int), 0⟩
  have hw : wMul 1 1 = 1 := by decide
  rw [castI32ofUsize_eq hi, hw, Int.tdiv_one, Int.tmod_one]

theorem wrapping_sub_one (i : Nat) (h1 : 1 ≤ i) (h2 : i < 2 ^ 64) :
    usizeWrappingSub i 1 = i - 1 := by
  unfold usizeWrappingSub
  omega

theorem wrapping_sub_zero_one : usizeWrappingSub 0 1 = 2 ^ 64 - 1 := by
  unfold usizeWrappingSub
  omega

theorem getD_oob {α : Type _} (l : List α) (i : Nat) (d : α) (h : l.length ≤ i) :
    l.getD i d = d := by
  rw [List.getD_eq_getElem?_getD, List.getElem?_eq_none h]
  rfl

theorem getD_set_general {α : Type _} :
    ∀ (l : List α) (j i : Nat) (v d : α),
      (l.set j v).getD i d = if j = i ∧ i < l.length then v else l.getD i d
  | [], j, i, v, d => by simp
  | b :: t, 0, 0, v, d => by simp
  | b :: t, 0, n + 1, v, d => by simp
  | b :: t, m + 1, 0, v, d => by simp
  | b :: t, m + 1, n + 1, v, d => by
    rw [List.set_cons_succ, List.getD_cons_succ, List.getD_cons_succ,
      getD_set_general t m n v d]
    exact if_congr (by simp only [List.length_cons]; omega) rfl rfl

theorem colVox_length (a k H : Nat) : (colVox a k H).length = H := by
  simp [colVox]

theorem colVox_getD (a k H y : Nat) (hy : y < H) :
    (colVox a k H).getD y Voxel.Air =
      if a ≤ y ∧ y < a + k then Voxel.Dirt else Voxel.Air := by
  unfold colVox
  rw [List.getD_eq_getElem?_getD, List.getElem?_map, List.getElem?_range hy]
  rfl

theorem midVox_length (a k H j : Nat) : (midVox a k H j).length = H := by
  simp [midVox]

theorem midVox_getD (a k H j y : Nat) (hy : y < H) :
    (midVox a k H j).getD y Voxel.Air =
      if (a - 1 ≤ y ∧ y + 1 < a + j) ∨ (a + j ≤ y ∧ y < a + k) then Voxel.Dirt
      else Voxel.Air := by
  unfold midVox
  rw [List.getD_eq_getElem?_getD, List.getElem?_map, List.getElem?_range hy]
  rfl

theorem simStep_air (vol ys : Nat) (s : VoxelSim) (i : Nat)
    (h : s.voxels.getD i Voxel.Air = Voxel.Air) : simStep vol ys s i = s := by
  simp only [simStep, h]
  rfl

theorem diagTry_1H1 (vol H : Nat) (vox : List Voxel) (M : Finset Nat) (nr : Bool)
    (i : Nat) (voxel : Voxel) (y : Int) :
    diagTry vol ⟨⟨1, H, 1⟩, vox, M, nr⟩ i voxel ⟨0, y, 0⟩ diagOffsets =
      ⟨⟨1, H, 1⟩, vox, M, nr⟩ := by
  simp [diagTry, diagOffsets, IVec3.add_x, IVec3.add_z]

theorem simStep_blocked_1H1 (H : Nat) (vox : List Voxel) (M : Finset Nat) (nr : Bool)
    (i : Nat) (hH : (H : Int) < 2 ^ 31) (hi : i < H)
    (hblock : i = 0 ∨ vox.getD (i - 1) Voxel.Air ≠ Voxel.Air) :
    simStep H 1 (⟨⟨1, H, 1⟩, vox, M, nr⟩ : VoxelSim) i = ⟨⟨1, H, 1⟩, vox, M, nr⟩ := by
  by_cases hair : vox.getD i Voxel.Air = Voxel.Air
  · exact simStep_air H 1 _ i hair
  · have hdiag : diagPhase H (⟨⟨1, H, 1⟩, vox, M, nr⟩ : VoxelSim) i
        (vox.getD i Voxel.Air) = ⟨⟨1, H, 1⟩, vox, M, nr⟩ := by
      show (if (0 : Int) ≤ (delinearize ⟨1, H, 1⟩ i).y - 2 then
          diagTry H ⟨⟨1, H, 1⟩, vox, M, nr⟩ i (vox.getD i Voxel.Air)
            (delinearize ⟨1, H, 1⟩ i) diagOffsets
        else (⟨⟨1, H, 1⟩, vox, M, nr⟩ : VoxelSim)) = ⟨⟨1, H, 1⟩, vox, M, nr⟩
      rw [delin_1H1 H i (by omega)]
      by_cases hy2 : (0 : Int) ≤ (i : Int) - 2
      · rw [if_pos hy2]
        exact diagTry_1H1 H H vox M nr i _ _
      · rw [if_neg hy2]
    simp only [simStep]
    by_cases hmov : movable (vox.getD i Voxel.Air) = true
    · rw [if_pos hmov]
      rcases Nat.eq_zero_or_pos i with rfl | hipos
      · rw [wrapping_sub_zero_one,
          if_neg (fun hcon => by have := hcon.1; omega)]
        exact hdiag
      · rw [wrapping_sub_one i hipos (by omega)]
        have hbl : vox.getD (i - 1) Voxel.Air ≠ Voxel.Air := by
          rcases hblock with h0 | h
          · omega
          · exact h
        rw [if_neg (fun hcon => hbl hcon.2)]
        exact hdiag
    · rw [if_neg hmov]

theorem midVox_step (a k H j : Nat) (ha : 1 ≤ a) (hj : j < k) (hak : a + k ≤ H) :
    ((midVox a k H j).set (a + j) Voxel.Air).set (a + j - 1) Voxel.Dirt =
      midVox a k H (j + 1) := by
  apply getD_ext Voxel.Air
  · simp [midVox]
  · intro i
    by_cases hiH : i < H
    · rw [getD_set_general, getD_set_general, List.length_set, midVox_length,
        midVox_getD a k H (j + 1) i hiH, midVox_getD a k H j i hiH]
      split_ifs <;> first | rfl | (exfalso; omega)
    · rw [getD_oob _ _ _ (by simp [midVox]; omega), getD_oob _ _ _ (by simp [midVox]; omega)]

theorem midMod_step (a j : Nat) (ha : 1 ≤ a) :
    insert (a + j - 1) (insert (a + j) (midMod a j)) = midMod a (j + 1) := by
  unfold midMod
  rw [if_neg (Nat.succ_ne_zero j)]
  by_cases hj : j = 0
  · subst hj
    rw [if_pos rfl]
    ext n
    simp only [Finset.mem_insert, Finset.mem_Ico, Finset.not_mem_empty, or_false]
    omega
  · rw [if_neg hj]
    ext n
    simp only [Finset.mem_insert, Finset.mem_Ico]
    omega

theorem simStep_mid (a k H j : Nat) (M : Finset Nat) (nr : Bool) (ha : 1 ≤ a)
    (hj : j < k) (hak : a + k ≤ H) (hH : (H : Int) < 2 ^ 31) :
    simStep H 1 (⟨⟨1, H, 1⟩, midVox a k H j, M, nr⟩ : VoxelSim) (a + j) =
      ⟨⟨1, H, 1⟩, midVox a k H (j + 1), insert (a + j - 1) (insert (a + j) M), true⟩ := by
  have hvox : (midVox a k H j).getD (a + j) Voxel.Air = Voxel.Dirt := by
    rw [midVox_getD a k H j (a + j) (by omega), if_pos (by omega)]
  have hbvox : (midVox a k H j).getD (a + j - 1) Voxel.Air = Voxel.Air := by
    rw [midVox_getD a k H j (a + j - 1) (by omega), if_neg (by omega)]
  simp only [simStep, hvox, movable]
  rw [if_pos trivial, wrapping_sub_one (a + j) (by omega) (by omega),
    if_pos ⟨by omega, hbvox⟩, midVox_step a k H j ha hj hak]

theorem foldl_range'_invariant {α : Type _} (f : α → Nat → α) :
    ∀ (k : Nat) (st : Nat → α) (a : Nat),
      (∀ j, j < k → f (st j) (a + j) = st (j + 1)) →
      (List.range' a k).foldl f (st 0) = st k
  | 0, _, _, _ => rfl
  | k + 1, st, a, h => by
    have h0 := h 0 (Nat.succ_pos k)
    rw [Nat.add_zero] at h0
    rw [List.range'_succ, List.foldl_cons, h0]
    exact foldl_range'_invariant f k (fun j => st (j + 1)) (a + 1)
      (fun j hj => by
        have hj2 := h (j + 1) (by omega)
        rwa [show a + (j + 1) = a + 1 + j from by omega] at hj2)

theorem colVox_eq_midVox_zero (a k H : Nat) : colVox a k H = midVox a k H 0 := by
  unfold colVox midVox
  apply List.map_congr_left
  intro y _
  exact if_congr (by omega) rfl rfl

theorem midVox_last (a k H : Nat) (ha : 1 ≤ a) : midVox a k H k = colVox (a - 1) k H := by
  unfold colVox midVox
  apply List.map_congr_left
  intro y _
  exact if_congr (by omega) rfl rfl

/-- One full `simulate` tick on a suspended column at height `a ≥ 1` whose cells
are all in the dirty set: every column cell falls one step, and the modified set
afterwards is the new column plus the vacated top cell. -/
theorem simulate_column (H a k : Nat) (M : Finset Nat) (nr : Bool) (d : DirtyBuffer)
    (ha : 1 ≤ a) (hk : 1 ≤ k) (hak : a + k ≤ H) (hH : (H : Int) < 2 ^ 31)
    (hcover : ∀ y, a ≤ y → y < a + k →
      y ∈ (DirtyBuffer.dilate_modified ⟨d.bounds, ∅⟩ M).dirty) :
    VoxelSim.simulate ⟨⟨1, H, 1⟩, colVox a k H, M, nr⟩ d =
      (⟨⟨1, H, 1⟩, colVox (a - 1) k H, Finset.Ico (a - 1) (a + k), true⟩,
        DirtyBuffer.dilate_modified ⟨d.bounds, ∅⟩ M) := by
  have hH0 : 0 < H := by omega
  simp only [VoxelSim.simulate]
  rw [volume_1H1 H (colVox a k H) M nr hH0 hH, y_stride_1H1 H hH0 hH]
  refine congrArg₂ Prod.mk ?_ rfl
  have hsplit : List.range' 0 a ++ (List.range' a k ++ List.range' (a + k) (H - (a + k))) =
      List.range H := by
    calc List.range' 0 a ++ (List.range' a k ++ List.range' (a + k) (H - (a + k)))
        = List.range' 0 a ++ List.range' a (H - (a + k) + k) := by
          rw [List.range'_append_1]
      _ = List.range' 0 a ++ List.range' (0 + a) (H - (a + k) + k) := by rw [Nat.zero_add]
      _ = List.range' 0 (H - (a + k) + k + a) := List.range'_append_1 0 a _
      _ = List.range' 0 H := by rw [show H - (a + k) + k + a = H from by omega]
      _ = List.range H := (List.range_eq_range' H).symm
  rw [← hsplit, List.foldl_append, List.foldl_append]
  have hA : (List.range' 0 a).foldl
      (fun acc i => if i ∈ (DirtyBuffer.dilate_modified ⟨d.bounds, ∅⟩ M).dirty
        then simStep H 1 acc i else acc)
      ⟨⟨1, H, 1⟩, colVox a k H, ∅, nr⟩ = ⟨⟨1, H, 1⟩, colVox a k H, ∅, nr⟩ := by
    apply foldl_fixed
    intro i hi
    have hia : i < a := by
      obtain ⟨jj, hjj, rfl⟩ := List.mem_range'.mp hi
      omega
    by_cases hmem : i ∈ (DirtyBuffer.dilate_modified ⟨d.bounds, ∅⟩ M).dirty
    · rw [if_pos hmem]
      apply simStep_air
      show (colVox a k H).getD i Voxel.Air = Voxel.Air
      rw [colVox_getD a k H i (by omega), if_neg (by omega)]
    · rw [if_neg hmem]
  rw [hA, show (⟨⟨1, H, 1⟩, colVox a k H, ∅, nr⟩ : VoxelSim) =
    ⟨⟨1, H, 1⟩, midVox a k H 0, midMod a 0, midNr nr 0⟩ from by
      rw [colVox_eq_midVox_zero]
      rfl]
  have hB : (List.range' a k).foldl
      (fun acc i => if i ∈ (DirtyBuffer.dilate_modified ⟨d.bounds, ∅⟩ M).dirty
        then simStep H 1 acc i else acc)
      ⟨⟨1, H, 1⟩, midVox a k H 0, midMod a 0, midNr nr 0⟩ =
      ⟨⟨1, H, 1⟩, midVox a k H k, midMod a k, midNr nr k⟩ := by
    apply foldl_range'_invariant
      (fun acc i => if i ∈ (DirtyBuffer.dilate_modified ⟨d.bounds, ∅⟩ M).dirty
        then simStep H 1 acc i else acc) k
      (fun j => ⟨⟨1, H, 1⟩, midVox a k H j, midMod a j, midNr nr j⟩) a
    intro j hj
    rw [if_pos (hcover (a + j) (by omega) (by omega)),
      simStep_mid a k H j (midMod a j) (midNr nr j) ha hj hak hH,
      midMod_step a j ha,
      show midNr nr (j + 1) = true from by unfold midNr; rw [if_neg (Nat.succ_ne_zero j)]]
  rw [hB]
  have hC : (List.range' (a + k) (H - (a + k))).foldl
      (fun acc i => if i ∈ (DirtyBuffer.dilate_modified ⟨d.bounds, ∅⟩ M).dirty
        then simStep H 1 acc i else acc)
      ⟨⟨1, H, 1⟩, midVox a k H k, midMod a k, midNr nr k⟩ =
      ⟨⟨1, H, 1⟩, midVox a k H k, midMod a k, midNr nr k⟩ := by
    apply foldl_fixed
    intro i hi
    have hik : a + k ≤ i ∧ i < H := by
      obtain ⟨jj, hjj, rfl⟩ := List.mem_range'.mp hi
      omega
    by_cases hmem : i ∈ (DirtyBuffer.dilate_modified ⟨d.bounds, ∅⟩ M).dirty
    · rw [if_pos hmem]
      apply simStep_air
      show (midVox a k H k).getD i Voxel.Air = Voxel.Air
      rw [midVox_getD a k H k i (by omega), if_neg (by omega)]
    · rw [if_neg hmem]
  rw [hC, midVox_last a k H ha,
    show midMod a k = Finset.Ico (a - 1) (a + k) from by unfold midMod; rw [if_neg (by omega)],
    show midNr nr k = true from by unfold midNr; rw [if_neg (by omega)]]

/-- A column resting on the floor does not move: one tick only clears the
modified set. -/
theorem simulate_rest (H k : Nat) (M : Finset Nat) (nr : Bool) (d : DirtyBuffer)
    (hk : 1 ≤ k) (hkH : k ≤ H) (hH : (H : Int) < 2 ^ 31) :
    VoxelSim.simulate ⟨⟨1, H, 1⟩, colVox 0 k H, M, nr⟩ d =
      (⟨⟨1, H, 1⟩, colVox 0 k H, ∅, nr⟩,
        DirtyBuffer.dilate_modified ⟨d.bounds, ∅⟩ M) := by
  have hH0 : 0 < H := by omega
  simp only [VoxelSim.simulate]
  rw [volume_1H1 H (colVox 0 k H) M nr hH0 hH, y_stride_1H1 H hH0 hH]
  refine congrArg₂ Prod.mk ?_ rfl
  apply foldl_fixed
  intro i hi
  have hiH : i < H := List.mem_range.mp hi
  by_cases hmem : i ∈ (DirtyBuffer.dilate_modified ⟨d.bounds, ∅⟩ M).dirty
  · rw [if_pos hmem]
    by_cases hik : i < k
    · apply simStep_blocked_1H1 H (colVox 0 k H) ∅ nr i hH hiH
      rcases Nat.eq_zero_or_pos i with rfl | hip
      · exact Or.inl rfl
      · refine Or.inr ?_
        rw [colVox_getD 0 k H (i - 1) (by omega), if_pos (by omega)]
        simp
    · apply simStep_air
      show (colVox 0 k H).getD i Voxel.Air = Voxel.Air
      rw [colVox_getD 0 k H i hiH, if_neg (by omega)]
  · rw [if_neg hmem]

/-- A grid with an empty modified set is a fixed point of `simulate` up to the
dirty buffer being cleared. -/
theorem simulate_quiesced (b : IVec3) (vox : List Voxel) (nr : Bool) (d : DirtyBuffer) :
    VoxelSim.simulate ⟨b, vox, ∅, nr⟩ d = (⟨b, vox, ∅, nr⟩, ⟨d.bounds, ∅⟩) := by
  simp only [VoxelSim.simulate]
  have hdil : DirtyBuffer.dilate_modified ⟨d.bounds, ∅⟩ (∅ : Finset Nat) = ⟨d.bounds, ∅⟩ := by
    unfold DirtyBuffer.dilate_modified
    simp
  rw [hdil]
  refine congrArg₂ Prod.mk ?_ rfl
  apply foldl_fixed
  intro i _
  rw [if_neg (Finset.not_mem_empty i)]

/-- Membership in the dilated dirty set of a `1×H×1` grid, via the cell above. -/
theorem dilate_mem_of_above (H : Nat) (d : DirtyBuffer) (M : Finset Nat) (y : Nat)
    (hH : (H : Int) < 2 ^ 31) (hd : d.bounds = ⟨1, H, 1⟩) (hyH : y < H)
    (hmem : y + 1 ∈ M) :
    y ∈ (DirtyBuffer.dilate_modified ⟨d.bounds, ∅⟩ M).dirty := by
  simp only [DirtyBuffer.dilate_modified, Finset.empty_union, Finset.mem_biUnion,
    List.mem_toFinset, List.mem_filterMap]
  refine ⟨y + 1, hmem, ⟨0, -1, 0⟩, by decide, ?_⟩
  dsimp only
  rw [hd, delin_1H1 H (y + 1) (by omega)]
  have hadd : (⟨0, ((y + 1 : Nat) : Int), 0⟩ : IVec3) + ⟨0, -1, 0⟩ = ⟨0, (y : Int), 0⟩ := by
    show (⟨0 + 0, ((y + 1 : Nat) : Int) + -1, 0 + 0⟩ : IVec3) = _
    simp only [IVec3.mk.injEq]
    refine ⟨by omega, by push_cast; omega, by omega⟩
  rw [hadd, in_bounds_1H1 H y hyH, if_pos rfl, linearize_1H1 H y (by omega) hH hyH]

/-- Membership in the dilated dirty set of a `1×H×1` grid, via the cell below. -/
theorem dilate_mem_of_below (H : Nat) (d : DirtyBuffer) (M : Finset Nat) (y0 : Nat)
    (hH : (H : Int) < 2 ^ 31) (hd : d.bounds = ⟨1, H, 1⟩) (hy0H : y0 + 1 < H)
    (hmem : y0 ∈ M) :
    y0 + 1 ∈ (DirtyBuffer.dilate_modified ⟨d.bounds, ∅⟩ M).dirty := by
  simp only [DirtyBuffer.dilate_modified, Finset.empty_union, Finset.mem_biUnion,
    List.mem_toFinset, List.mem_filterMap]
  refine ⟨y0, hmem, ⟨0, 1, 0⟩, by decide, ?_⟩
  dsimp only
  rw [hd, delin_1H1 H y0 (by omega)]
  have hadd : (⟨0, (y0 : Int), 0⟩ : IVec3) + ⟨0, 1, 0⟩ = ⟨0, ((y0 + 1 : Nat) : Int), 0⟩ := by
    show (⟨0 + 0, (y0 : Int) + 1, 0 + 0⟩ : IVec3) = _
    simp only [IVec3.mk.injEq]
    refine ⟨by omega, by push_cast; omega, by omega⟩
  rw [hadd, in_bounds_1H1 H (y0 + 1) hy0H, if_pos rfl,
    linearize_1H1 H (y0 + 1) (by omega) hH hy0H]

theorem column_ticks_aux (H a k : Nat) (d₀ : DirtyBuffer) (hk : 2 ≤ k) (ha : 1 ≤ a)
    (hak : a + k ≤ H) (hH : (H : Int) < 2 ^ 31) (hd : d₀.bounds = ⟨1, H, 1⟩) :
    ∀ j, 1 ≤ j → j ≤ a →
      ((tick^[j]) (⟨⟨1, H, 1⟩, colVox a k H, Finset.Ico a (a + k), false⟩, d₀)).1 =
        ⟨⟨1, H, 1⟩, colVox (a - j) k H, Finset.Ico (a - j) (a - j + k + 1), true⟩ ∧
      ((tick^[j]) (⟨⟨1, H, 1⟩, colVox a k H, Finset.Ico a (a + k), false⟩, d₀)).2.bounds =
        ⟨1, H, 1⟩ := by
  intro j
  induction j with
  | zero => intro h1 _; omega
  | succ n ih =>
    intro _ hn1
    rcases Nat.eq_zero_or_pos n with rfl | hn
    · rw [Function.iterate_one]
      have hcov : ∀ y, a ≤ y → y < a + k →
          y ∈ (DirtyBuffer.dilate_modified ⟨d₀.bounds, ∅⟩ (Finset.Ico a (a + k))).dirty := by
        intro y hy1 hy2
        by_cases htop : y + 1 < a + k
        · exact dilate_mem_of_above H d₀ _ y hH hd (by omega)
            (Finset.mem_Ico.mpr ⟨by omega, htop⟩)
        · rw [show y = (a + k - 2) + 1 from by omega]
          exact dilate_mem_of_below H d₀ _ (a + k - 2) hH hd (by omega)
            (Finset.mem_Ico.mpr ⟨by omega, by omega⟩)
      have hsim := simulate_column H a k (Finset.Ico a (a + k)) false d₀ ha (by omega) hak
        hH hcov
      constructor
      · show (VoxelSim.simulate ⟨⟨1, H, 1⟩, colVox a k H, Finset.Ico a (a + k), false⟩ d₀).1 =
          _
        rw [hsim, show a - 1 + k + 1 = a + k from by omega]
      · show (VoxelSim.simulate ⟨⟨1, H, 1⟩, colVox a k H, Finset.Ico a (a + k), false⟩
          d₀).2.bounds = _
        rw [hsim]
        exact hd
    · have ihn := ih (by omega) (by omega)
      rw [Function.iterate_succ_apply']
      have hcov : ∀ y, a - n ≤ y → y < a - n + k →
          y ∈ (DirtyBuffer.dilate_modified
            ⟨((tick^[n]) (⟨⟨1, H, 1⟩, colVox a k H, Finset.Ico a (a + k), false⟩,
              d₀)).2.bounds, ∅⟩
            (Finset.Ico (a - n) (a - n + k + 1))).dirty := by
        intro y hy1 hy2
        exact dilate_mem_of_above H _ _ y hH ihn.2 (by omega)
          (Finset.mem_Ico.mpr ⟨by omega, by omega⟩)
      have hsim := simulate_column H (a - n) k (Finset.Ico (a - n) (a - n + k + 1)) true
        ((tick^[n]) (⟨⟨1, H, 1⟩, colVox a k H, Finset.Ico a (a + k), false⟩, d₀)).2
        (by omega) (by omega) (by omega) hH hcov
      constructor
      · show ((((tick^[n]) (⟨⟨1, H, 1⟩, colVox a k H, Finset.Ico a (a + k), false⟩,
            d₀)).1).simulate
          (((tick^[n]) (⟨⟨1, H, 1⟩, colVox a k H, Finset.Ico a (a + k), false⟩, d₀)).2)).1 = _
        rw [ihn.1, hsim, show a - n - 1 = a - (n + 1) from by omega,
          show a - n + k = a - (n + 1) + k + 1 from by omega]
      · show ((((tick^[n]) (⟨⟨1, H, 1⟩, colVox a k H, Finset.Ico a (a + k), false⟩,
            d₀)).1).simulate
          (((tick^[n]) (⟨⟨1, H, 1⟩, colVox a k H, Finset.Ico a (a + k), false⟩,
            d₀)).2)).2.bounds = _
        rw [ihn.1, hsim]
        exact ihn.2

theorem column_rest_aux (H a k : Nat) (d₀ : DirtyBuffer) (hk : 2 ≤ k) (ha : 1 ≤ a)
    (hak : a + k ≤ H) (hH : (H : Int) < 2 ^ 31) (hd : d₀.bounds = ⟨1, H, 1⟩) :
    ∀ j, a + 1 ≤ j →
      ((tick^[j]) (⟨⟨1, H, 1⟩, colVox a k H, Finset.Ico a (a + k), false⟩, d₀)).1 =
        ⟨⟨1, H, 1⟩, colVox 0 k H, ∅, true⟩ ∧
      ((tick^[j]) (⟨⟨1, H, 1⟩, colVox a k H, Finset.Ico a (a + k), false⟩, d₀)).2.bounds =
        ⟨1, H, 1⟩ ∧
      (a + 2 ≤ j →
        ((tick^[j]) (⟨⟨1, H, 1⟩, colVox a k H, Finset.Ico a (a + k), false⟩, d₀)).2.dirty =
          ∅) := by
  intro j
  induction j with
  | zero => intro h; omega
  | succ n ih =>
    intro hn
    rcases Nat.lt_or_ge n (a + 1) with hlt | hge
    · have hna : n = a := by omega
      subst hna
      have haux := column_ticks_aux H n k d₀ hk ha hak hH hd n ha le_rfl
      rw [Nat.sub_self] at haux
      rw [Function.iterate_succ_apply']
      have hsim := simulate_rest H k (Finset.Ico 0 (0 + k + 1)) true
        ((tick^[n]) (⟨⟨1, H, 1⟩, colVox n k H, Finset.Ico n (n + k), false⟩, d₀)).2
        (by omega) (by omega) hH
      refine ⟨?_, ?_, ?_⟩
      · show ((((tick^[n]) (⟨⟨1, H, 1⟩, colVox n k H, Finset.Ico n (n + k), false⟩,
            d₀)).1).simulate
          (((tick^[n]) (⟨⟨1, H, 1⟩, colVox n k H, Finset.Ico n (n + k), false⟩, d₀)).2)).1 = _
        rw [haux.1, hsim]
      · show ((((tick^[n]) (⟨⟨1, H, 1⟩, colVox n k H, Finset.Ico n (n + k), false⟩,
            d₀)).1).simulate
          (((tick^[n]) (⟨⟨1, H, 1⟩, colVox n k H, Finset.Ico n (n + k), false⟩,
            d₀)).2)).2.bounds = _
        rw [haux.1, hsim]
        exact haux.2
      · intro hcon
        omega
    · have ihn := ih (by omega)
      rw [Function.iterate_succ_apply']
      have hsim := simulate_quiesced ⟨1, H, 1⟩ (colVox 0 k H) true
        ((tick^[n]) (⟨⟨1, H, 1⟩, colVox a k H, Finset.Ico a (a + k), false⟩, d₀)).2
      refine ⟨?_, ?_, ?_⟩
      · show ((((tick^[n]) (⟨⟨1, H, 1⟩, colVox a k H, Finset.Ico a (a + k), false⟩,
            d₀)).1).simulate
          (((tick^[n]) (⟨⟨1, H, 1⟩, colVox a k H, Finset.Ico a (a + k), false⟩, d₀)).2)).1 = _
        rw [ihn.1, hsim]
      · show ((((tick^[n]) (⟨⟨1, H, 1⟩, colVox a k H, Finset.Ico a (a + k), false⟩,
            d₀)).1).simulate
          (((tick^[n]) (⟨⟨1, H, 1⟩, colVox a k H, Finset.Ico a (a + k), false⟩,
            d₀)).2)).2.bounds = _
        rw [ihn.1, hsim]
        exact ihn.2.1
      · intro _
        show ((((tick^[n]) (⟨⟨1, H, 1⟩, colVox a k H, Finset.Ico a (a + k), false⟩,
            d₀)).1).simulate
          (((tick^[n]) (⟨⟨1, H, 1⟩, colVox a k H, Finset.Ico a (a + k), false⟩,
            d₀)).2)).2.dirty = _
        rw [ihn.1, hsim]

/-- C3 counterexample: a single suspended `Dirt` cell (`k = 1`, at height 1 of a
`1×3×1` grid, marked modified) does not move down on the next tick — the dirty
dilation never includes the cell's own index, so the column stays suspended
forever instead of falling to the floor. -/
theorem single_cell_column_counterexample :
    (tick (⟨⟨1, 3, 1⟩, colVox 1 1 3, Finset.Ico 1 2, false⟩,
        DirtyBuffer.new ⟨1, 3, 1⟩)).1.voxels = colVox 1 1 3 ∧
    colVox 1 1 3 ≠ colVox 0 1 3 :=
  ⟨by decide, by decide⟩

/-- C3 (amended, `k ≥ 2`): a suspended 1-wide column of `k ≥ 2` `Dirt` cells
(bottom at height `a ≥ 1`, all column cells marked modified) falls exactly one
cell per tick for `a` ticks until it rests on the floor; every following tick
produces no modified cells, and from two ticks after landing the dirty set is
empty.  (For `k = 1` the claim fails: see the single-cell counterexample.) -/
theorem column_settles (H a k : Nat) (d₀ : DirtyBuffer) (hk : 2 ≤ k) (ha : 1 ≤ a)
    (hak : a + k ≤ H) (hH : (H : Int) < 2 ^ 31) (hd : d₀.bounds = ⟨1, H, 1⟩) :
    (∀ j, j ≤ a →
      ((tick^[j]) (⟨⟨1, H, 1⟩, colVox a k H, Finset.Ico a (a + k), false⟩, d₀)).1.voxels =
        colVox (a - j) k H) ∧
    (∀ j, a + 1 ≤ j →
      ((tick^[j]) (⟨⟨1, H, 1⟩, colVox a k H, Finset.Ico a (a + k), false⟩, d₀)).1.voxels =
        colVox 0 k H ∧
      ((tick^[j]) (⟨⟨1, H, 1⟩, colVox a k H, Finset.Ico a (a + k), false⟩, d₀)).1.modified =
        ∅) ∧
    (∀ j, a + 2 ≤ j →
      ((tick^[j]) (⟨⟨1, H, 1⟩, colVox a k H, Finset.Ico a (a + k), false⟩, d₀)).2.dirty =
        ∅) := by
  refine ⟨?_, ?_, ?_⟩
  · intro j hj
    rcases Nat.eq_zero_or_pos j with rfl | hj1
    · rfl
    · rw [(column_ticks_aux H a k d₀ hk ha hak hH hd j hj1 hj).1]
  · intro j hj
    have h := column_rest_aux H a k d₀ hk ha hak hH hd j hj
    exact ⟨by rw [h.1], by rw [h.1]⟩
  · intro j hj
    exact (column_rest_aux H a k d₀ hk ha hak hH hd j (by omega)).2.2 hj

/-- Witness for C3 on a concrete `1×4×1` grid: a 2-cell column at height 1 lands
on the floor after one tick. -/
theorem column_settles_witness :
    ((tick^[1]) (⟨⟨1, 4, 1⟩, colVox 1 2 4, Finset.Ico 1 3, false⟩,
      DirtyBuffer.new ⟨1, 4, 1⟩)).1.voxels = colVox 0 2 4 := by
  have h := (column_settles 4 1 2 (DirtyBuffer.new ⟨1, 4, 1⟩) (by omega) (by omega)
    (by omega) (by norm_num) rfl).1 1 le_rfl
  exact h
